import Mathlib

/-!
A formal model of the AsyncChat server core (`server.py`): the connection
registry (`clients`), the nickname directory (`nick_to_writer`), the command
dispatcher (`handle_command` / `handle_chat`), the delivery engine
(`broadcast`, `send_line`, `safe_send`) and the disconnect path
(`disconnect`), together with proofs of the specified properties.

Connections (asyncio stream writers) are modelled as natural numbers; Python
dictionaries are modelled as association lists with Python's update semantics
(updating an existing key keeps its position, a new key is appended at the
end); transport write failures are modelled by a predicate `fails` on
connections; the wall clock (`self.ts()`) is a parameter `ts`.  Observable
output is a list of events: `Event.send w l` (line `l` delivered to connection
`w`) and `Event.close w reason` (the stream of `w` is closed with the logged
reason).  The recursion broadcast → disconnect → departure broadcast is
bounded by explicit fuel; a `none` result means fuel exhaustion (the Python
code never lets a write failure escape: it converts it into a disconnect).
-/

/-- Python dict lookup (`d.get(k)`), on an association list. -/
def dlookup {K V : Type} [DecidableEq K] : List (K × V) → K → Option V
  | [], _ => none
  | (k', v) :: rest, k => if k' = k then some v else dlookup rest k

/-- Python dict update (`d[k] = v`): an existing key keeps its position, a new
key is appended at the end. -/
def dictSet {K V : Type} [DecidableEq K] : List (K × V) → K → V → List (K × V)
  | [], k, v => [(k, v)]
  | (k', v') :: rest, k, v =>
    if k' = k then (k, v) :: rest else (k', v') :: dictSet rest k v

/-- Python dict removal (`d.pop(k, None)`). -/
def dictPop {K V : Type} [DecidableEq K] : List (K × V) → K → List (K × V)
  | [], _ => []
  | (k', v') :: rest, k => if k' = k then rest else (k', v') :: dictPop rest k

/-- The keys of a dict (`d.keys()`), in insertion order. -/
def keysOf {K V : Type} (d : List (K × V)) : List K := d.map Prod.fst

section DictLemmas

variable {K V : Type} [DecidableEq K]

theorem keysOf_nil : keysOf ([] : List (K × V)) = [] := rfl

theorem keysOf_cons (p : K × V) (rest : List (K × V)) :
    keysOf (p :: rest) = p.1 :: keysOf rest := rfl

theorem mem_keysOf {d : List (K × V)} {p : K × V} (hp : p ∈ d) :
    p.1 ∈ keysOf d := List.mem_map_of_mem Prod.fst hp

theorem exists_of_mem_keysOf {d : List (K × V)} {k : K} (h : k ∈ keysOf d) :
    ∃ v, (k, v) ∈ d := by
  rcases List.mem_map.mp h with ⟨p, hp, he⟩
  exact ⟨p.2, by rw [← he]; exact hp⟩

theorem dlookup_eq_none_iff (d : List (K × V)) (k : K) :
    dlookup d k = none ↔ k ∉ keysOf d := by
  induction d with
  | nil => simp [dlookup, keysOf]
  | cons p rest ih =>
    obtain ⟨k', v⟩ := p
    rw [keysOf_cons]
    by_cases h : k' = k
    · subst h
      simp [dlookup]
    · simp only [dlookup, if_neg h, ih, List.mem_cons]
      constructor
      · intro h1 h2
        rcases h2 with h2 | h2
        · exact h h2.symm
        · exact h1 h2
      · intro h1 h2
        exact h1 (Or.inr h2)


theorem dlookup_isSome_iff (d : List (K × V)) (k : K) :
    (dlookup d k).isSome ↔ k ∈ keysOf d := by
  rw [Option.isSome_iff_ne_none, ne_eq, dlookup_eq_none_iff]
  exact not_not

theorem dlookup_not_mem {d : List (K × V)} {k : K} (h : k ∉ keysOf d) :
    dlookup d k = none := (dlookup_eq_none_iff d k).mpr h

theorem dlookup_mem {d : List (K × V)} {k : K} {v : V} (h : dlookup d k = some v) :
    (k, v) ∈ d := by
  induction d with
  | nil => simp [dlookup] at h
  | cons p rest ih =>
    obtain ⟨k', v'⟩ := p
    by_cases hk : k' = k
    · subst hk
      simp [dlookup] at h
      simp [h]
    · simp [dlookup, hk] at h
      exact List.mem_cons_of_mem _ (ih h)

theorem dlookup_mem_keys {d : List (K × V)} {k : K} {v : V}
    (h : dlookup d k = some v) : k ∈ keysOf d := mem_keysOf (dlookup_mem h)

theorem mem_dlookup {d : List (K × V)} {k : K} {v : V}
    (hnd : (keysOf d).Nodup) (h : (k, v) ∈ d) : dlookup d k = some v := by
  induction d with
  | nil => simp at h
  | cons p rest ih =>
    obtain ⟨k', v'⟩ := p
    rw [keysOf_cons, List.nodup_cons] at hnd
    rcases List.mem_cons.mp h with heq | hmem
    · rw [Prod.ext_iff] at heq
      obtain ⟨h1, h2⟩ := heq
      simp at h1 h2
      subst h1; subst h2
      simp [dlookup]
    · have hne : k' ≠ k := by
        intro hkk
        have h3 : (k, v).1 ∈ keysOf rest := mem_keysOf hmem
        rw [hkk] at hnd
        exact hnd.1 h3
      simp only [dlookup, if_neg hne]
      exact ih hnd.2 hmem

theorem dictSet_lookup_self (d : List (K × V)) (k : K) (v : V) :
    dlookup (dictSet d k v) k = some v := by
  induction d with
  | nil => simp [dictSet, dlookup]
  | cons p rest ih =>
    obtain ⟨k', v'⟩ := p
    by_cases h : k' = k <;> simp [dictSet, dlookup, h, ih]

theorem dictSet_lookup_ne (d : List (K × V)) {k k' : K} (v : V) (h : k' ≠ k) :
    dlookup (dictSet d k v) k' = dlookup d k' := by
  have hne : k ≠ k' := fun hh => h hh.symm
  induction d with
  | nil => simp [dictSet, dlookup, hne]
  | cons p rest ih =>
    obtain ⟨k₀, v₀⟩ := p
    by_cases h0 : k₀ = k
    · subst h0
      simp [dictSet, dlookup, hne]
    · by_cases h1 : k₀ = k' <;> simp [dictSet, dlookup, h0, h1, h, ih]

theorem keysOf_dictSet_mem {d : List (K × V)} {k : K} (v : V) (h : k ∈ keysOf d) :
    keysOf (dictSet d k v) = keysOf d := by
  induction d with
  | nil => simp [keysOf] at h
  | cons p rest ih =>
    obtain ⟨k', v'⟩ := p
    rw [keysOf_cons] at h
    by_cases hk : k' = k
    · simp [dictSet, hk, keysOf_cons]
    · rcases List.mem_cons.mp h with h1 | h1
      · exact absurd h1.symm hk
      · simp [dictSet, hk, keysOf_cons, ih h1]

theorem keysOf_dictSet_not_mem {d : List (K × V)} {k : K} (v : V)
    (h : k ∉ keysOf d) : keysOf (dictSet d k v) = keysOf d ++ [k] := by
  induction d with
  | nil => simp [dictSet, keysOf]
  | cons p rest ih =>
    obtain ⟨k', v'⟩ := p
    rw [keysOf_cons, List.mem_cons] at h
    push_neg at h
    have hk : k' ≠ k := fun hh => h.1 hh.symm
    simp [dictSet, hk, keysOf_cons, ih h.2]

theorem nodup_keys_dictSet {d : List (K × V)} {k : K} (v : V)
    (h : (keysOf d).Nodup) : (keysOf (dictSet d k v)).Nodup := by
  by_cases hk : k ∈ keysOf d
  · rw [keysOf_dictSet_mem v hk]; exact h
  · rw [keysOf_dictSet_not_mem v hk]
    simpa [List.nodup_append] using ⟨h, fun hkk => hk hkk⟩

theorem mem_dictSet_self (d : List (K × V)) (k : K) (v : V) :
    (k, v) ∈ dictSet d k v := by
  induction d with
  | nil => simp [dictSet]
  | cons p rest ih =>
    obtain ⟨k', v'⟩ := p
    by_cases h : k' = k <;> simp [dictSet, h, ih]

theorem mem_dictSet_of_ne {d : List (K × V)} {p : K × V} (k : K) (v : V)
    (hp : p ∈ d) (hne : p.1 ≠ k) : p ∈ dictSet d k v := by
  induction d with
  | nil => simp at hp
  | cons q rest ih =>
    obtain ⟨k', v'⟩ := q
    by_cases h : k' = k
    · subst h
      rcases List.mem_cons.mp hp with h1 | h1
      · exact absurd (by rw [h1]) hne
      · simp [dictSet, h1]
    · rcases List.mem_cons.mp hp with h1 | h1
      · simp [dictSet, h, h1]
      · simp only [dictSet, if_neg h, List.mem_cons]
        exact Or.inr (ih h1)

theorem mem_dictSet_elim {d : List (K × V)} {k : K} {v : V} {p : K × V}
    (hnd : (keysOf d).Nodup) (hp : p ∈ dictSet d k v) :
    p = (k, v) ∨ (p ∈ d ∧ p.1 ≠ k) := by
  induction d with
  | nil =>
    simp [dictSet] at hp
    exact Or.inl hp
  | cons q rest ih =>
    obtain ⟨k', v'⟩ := q
    rw [keysOf_cons, List.nodup_cons] at hnd
    by_cases h : k' = k
    · subst h
      rcases List.mem_cons.mp (by simpa [dictSet] using hp) with h1 | h1
      · exact Or.inl h1
      · refine Or.inr ⟨List.mem_cons_of_mem _ h1, fun hk => ?_⟩
        have h3 : p.1 ∈ keysOf rest := mem_keysOf h1
        rw [hk] at h3
        exact hnd.1 h3
    · rcases List.mem_cons.mp (by simpa [dictSet, h] using hp) with h1 | h1
      · refine Or.inr ⟨by simp [h1], ?_⟩
        rw [h1]
        exact h
      · rcases ih hnd.2 h1 with h2 | h2
        · exact Or.inl h2
        · exact Or.inr ⟨List.mem_cons_of_mem _ h2.1, h2.2⟩

theorem mem_dictPop_of_ne {d : List (K × V)} {p : K × V} (k : K)
    (hp : p ∈ d) (hne : p.1 ≠ k) : p ∈ dictPop d k := by
  induction d with
  | nil => simp at hp
  | cons q rest ih =>
    obtain ⟨k', v'⟩ := q
    by_cases h : k' = k
    · subst h
      rcases List.mem_cons.mp hp with h1 | h1
      · exact absurd (by rw [h1]) hne
      · simpa [dictPop] using h1
    · rcases List.mem_cons.mp hp with h1 | h1
      · simp [dictPop, h, h1]
      · simp only [dictPop, if_neg h, List.mem_cons]
        exact Or.inr (ih h1)

theorem mem_dictPop_elim {d : List (K × V)} {k : K} {p : K × V}
    (hp : p ∈ dictPop d k) : p ∈ d := by
  induction d with
  | nil => simpa [dictPop] using hp
  | cons q rest ih =>
    obtain ⟨k', v'⟩ := q
    by_cases h : k' = k
    · exact List.mem_cons_of_mem _ (by simpa [dictPop, h] using hp)
    · rcases List.mem_cons.mp (by simpa [dictPop, h] using hp) with h1 | h1
      · simp [h1]
      · exact List.mem_cons_of_mem _ (ih h1)

theorem keysOf_dictPop_sublist (d : List (K × V)) (k : K) :
    (keysOf (dictPop d k)).Sublist (keysOf d) := by
  induction d with
  | nil => simp [dictPop, keysOf]
  | cons q rest ih =>
    obtain ⟨k', v'⟩ := q
    by_cases h : k' = k
    · simpa [dictPop, h, keysOf_cons] using (List.sublist_cons_self k' (keysOf rest))
    · simpa [dictPop, h, keysOf_cons] using ih.cons₂ k'

theorem keysOf_dictPop_subset (d : List (K × V)) (k : K) :
    keysOf (dictPop d k) ⊆ keysOf d :=
  (keysOf_dictPop_sublist d k).subset

theorem nodup_keys_dictPop {d : List (K × V)} (k : K)
    (h : (keysOf d).Nodup) : (keysOf (dictPop d k)).Nodup :=
  (keysOf_dictPop_sublist d k).nodup h

theorem not_mem_keys_dictPop {d : List (K × V)} {k : K}
    (hnd : (keysOf d).Nodup) : k ∉ keysOf (dictPop d k) := by
  induction d with
  | nil => simp [dictPop, keysOf]
  | cons q rest ih =>
    obtain ⟨k', v'⟩ := q
    rw [keysOf_cons, List.nodup_cons] at hnd
    by_cases h : k' = k
    · subst h
      intro hk
      simp only [dictPop, if_pos rfl] at hk
      exact hnd.1 hk
    · intro hk
      simp only [dictPop, if_neg h, keysOf_cons, List.mem_cons] at hk
      rcases hk with h1 | h1
      · exact h h1.symm
      · exact ih hnd.2 h1

theorem dictPop_lookup_ne (d : List (K × V)) {k k' : K} (h : k' ≠ k) :
    dlookup (dictPop d k) k' = dlookup d k' := by
  induction d with
  | nil => simp [dictPop]
  | cons q rest ih =>
    obtain ⟨k₀, v₀⟩ := q
    by_cases h0 : k₀ = k
    · subst h0
      have : k₀ ≠ k' := fun hh => h hh.symm
      simp [dictPop, dlookup, this]
    · by_cases h1 : k₀ = k' <;> simp [dictPop, dlookup, h0, h1, h, ih]

theorem dictPop_lookup_self {d : List (K × V)} {k : K}
    (hnd : (keysOf d).Nodup) : dlookup (dictPop d k) k = none :=
  dlookup_not_mem (not_mem_keys_dictPop hnd)

theorem dictPop_not_mem {d : List (K × V)} {k : K} (h : k ∉ keysOf d) :
    dictPop d k = d := by
  induction d with
  | nil => simp [dictPop]
  | cons q rest ih =>
    obtain ⟨k', v'⟩ := q
    rw [keysOf_cons, List.mem_cons] at h
    push_neg at h
    have hk : k' ≠ k := fun hh => h.1 hh.symm
    simp [dictPop, hk, ih h.2]

theorem length_dictPop_le (d : List (K × V)) (k : K) :
    (dictPop d k).length ≤ d.length := by
  induction d with
  | nil => simp [dictPop]
  | cons q rest ih =>
    obtain ⟨k', v'⟩ := q
    by_cases h : k' = k <;> simp [dictPop, h] <;> omega

theorem length_dictPop_of_mem {d : List (K × V)} {k : K} (h : k ∈ keysOf d) :
    (dictPop d k).length + 1 = d.length := by
  induction d with
  | nil => simp [keysOf] at h
  | cons q rest ih =>
    obtain ⟨k', v'⟩ := q
    rw [keysOf_cons] at h
    by_cases hk : k' = k
    · simp [dictPop, hk]
    · rcases List.mem_cons.mp h with h1 | h1
      · exact absurd h1.symm hk
      · simp only [dictPop, if_neg hk, List.length_cons]
        rw [← ih h1]

end DictLemmas

/-- ASCII apostrophe (U+0027), used in several server reply strings. -/
def SQ : String := String.singleton (Char.ofNat 39)

/-- Python `str.lower()`, character by character. -/
def pyLower (s : String) : String := String.mk (s.data.map Char.toLower)

/-- Python `str.strip()`: remove leading and trailing whitespace. -/
def pyStrip (s : String) : String :=
  String.mk (((s.data.dropWhile Char.isWhitespace).reverse.dropWhile
    Char.isWhitespace).reverse)

/-- Python `line.startswith("/")`. -/
def startsWithSlash (s : String) : Bool :=
  match s.data with
  | [] => false
  | c :: _ => c = '/'

/-- The first whitespace-delimited token of a character list (used by
`line.split(maxsplit=2)`). -/
def firstTok (cs : List Char) : List Char :=
  (cs.dropWhile Char.isWhitespace).takeWhile (fun c => !c.isWhitespace)

/-- What remains after the first whitespace-delimited token. -/
def restAfterTok (cs : List Char) : List Char :=
  (cs.dropWhile Char.isWhitespace).dropWhile (fun c => !c.isWhitespace)

/-- Python `line.split(maxsplit=2)`: split on runs of whitespace, at most two
splits; the third part is the remainder of the line (leading whitespace
consumed, trailing whitespace kept). -/
def pySplitMax2 (s : String) : List String :=
  if firstTok s.data = [] then []
  else if firstTok (restAfterTok s.data) = [] then [String.mk (firstTok s.data)]
  else if (restAfterTok (restAfterTok s.data)).dropWhile Char.isWhitespace = [] then
    [String.mk (firstTok s.data), String.mk (firstTok (restAfterTok s.data))]
  else
    [String.mk (firstTok s.data), String.mk (firstTok (restAfterTok s.data)),
      String.mk ((restAfterTok (restAfterTok s.data)).dropWhile Char.isWhitespace)]

/-- Python `raw_line.rstrip("\r\n")`. -/
def pyRstripCRLF (s : String) : String :=
  String.mk ((s.data.reverse.dropWhile (fun c => c = '\r' || c = '\n')).reverse)

/-- Python `", ".join(xs)`. -/
def joinComma : List String → String
  | [] => ""
  | [x] => x
  | x :: y :: rest => x ++ ", " ++ joinComma (y :: rest)

/-- The comparison used by `users.sort(key=lambda x: x.lower())`. -/
def ciLE (a b : String) : Prop := pyLower a ≤ pyLower b

instance ciLE_decidable : DecidableRel ciLE := fun a b =>
  inferInstanceAs (Decidable (pyLower a ≤ pyLower b))

/-- Insert into a list sorted by `ciLE`. -/
def insertCI (x : String) : List String → List String
  | [] => [x]
  | y :: ys => if ciLE x y then x :: y :: ys else y :: insertCI x ys

/-- `users.sort(key=lambda x: x.lower())`: sort case-insensitively.  (The
directory never holds two names equal up to case, so the stable Python sort
and this insertion sort produce the same list.) -/
def sortCI : List String → List String
  | [] => []
  | x :: xs => insertCI x (sortCI xs)

theorem string_mk_data (s : String) : String.mk s.data = s := by
  cases s
  rfl

theorem dropWhile_eq_self_of_none {p : Char → Bool} :
    ∀ {l : List Char}, (∀ c ∈ l, p c = false) → l.dropWhile p = l := by
  intro l h
  cases l with
  | nil => rfl
  | cons a t =>
    rw [List.dropWhile_cons, if_neg (by simp [h a (List.mem_cons_self a t)])]

theorem takeWhile_eq_self_of_all {p : Char → Bool} :
    ∀ {l : List Char}, (∀ c ∈ l, p c = true) → l.takeWhile p = l := by
  intro l
  induction l with
  | nil => intro _; rfl
  | cons a t ih =>
    intro h
    rw [List.takeWhile_cons, if_pos (h a (List.mem_cons_self a t))]
    rw [ih (fun c hc => h c (List.mem_cons_of_mem a hc))]

theorem dropWhile_eq_nil_of_all {p : Char → Bool} :
    ∀ {l : List Char}, (∀ c ∈ l, p c = true) → l.dropWhile p = [] := by
  intro l
  induction l with
  | nil => intro _; rfl
  | cons a t ih =>
    intro h
    rw [List.dropWhile_cons, if_pos (h a (List.mem_cons_self a t))]
    exact ih (fun c hc => h c (List.mem_cons_of_mem a hc))

theorem head_dropWhile_false {p : Char → Bool} :
    ∀ {l : List Char} {c : Char} {cs : List Char},
      l.dropWhile p = c :: cs → p c = false := by
  intro l
  induction l with
  | nil => intro c cs h; simp at h
  | cons a t ih =>
    intro c cs h
    rw [List.dropWhile_cons] at h
    by_cases hp : p a
    · exact ih (by simpa [hp] using h)
    · have h2 : a = c := by
        have := (by simpa [hp] using h : a :: t = c :: cs)
        exact (List.cons.injEq a t c cs ▸ this).1
      rw [← h2]
      simpa using hp

theorem takeWhile_append_of {p : Char → Bool} {l1 l2 : List Char} {x : Char}
    (h1 : ∀ c ∈ l1, p c = true) (h2 : p x = false) :
    (l1 ++ x :: l2).takeWhile p = l1 := by
  induction l1 with
  | nil => simp [List.takeWhile_cons, h2]
  | cons a t ih =>
    rw [List.cons_append, List.takeWhile_cons,
      if_pos (h1 a (List.mem_cons_self a t)),
      ih (fun c hc => h1 c (List.mem_cons_of_mem a hc))]

theorem dropWhile_append_of {p : Char → Bool} {l1 l2 : List Char} {x : Char}
    (h1 : ∀ c ∈ l1, p c = true) (h2 : p x = false) :
    (l1 ++ x :: l2).dropWhile p = x :: l2 := by
  induction l1 with
  | nil => simp [List.dropWhile_cons, h2]
  | cons a t ih =>
    rw [List.cons_append, List.dropWhile_cons,
      if_pos (h1 a (List.mem_cons_self a t))]
    exact ih (fun c hc => h1 c (List.mem_cons_of_mem a hc))

/-- Every character of `firstTok cs` is non-whitespace. -/
theorem firstTok_no_ws {cs : List Char} {c : Char} (hc : c ∈ firstTok cs) :
    c.isWhitespace = false := by
  have := List.mem_takeWhile_imp hc
  simpa using this

/-- If `firstTok cs` is nonempty as a condition, it really is nonempty. -/
theorem firstTok_ne_nil_iff (cs : List Char) :
    firstTok cs ≠ [] ↔ cs.dropWhile Char.isWhitespace ≠ [] := by
  unfold firstTok
  rcases hl : cs.dropWhile Char.isWhitespace with _ | ⟨c, t⟩
  · simp
  · have hc : Char.isWhitespace c = false := head_dropWhile_false hl
    rw [List.takeWhile_cons, if_pos (by simp [hc])]
    simp

/-- The second element produced by `pySplitMax2` is a token: nonempty and free
of whitespace. -/
theorem pySplitMax2_token2 {s t1 t2 : String} {rest : List String}
    (h : pySplitMax2 s = t1 :: t2 :: rest) :
    t2.data ≠ [] ∧ ∀ c ∈ t2.data, c.isWhitespace = false := by
  unfold pySplitMax2 at h
  split_ifs at h with h1 h2 h3
  · simp at h
  · obtain ⟨-, -, -⟩ := h
    exact ⟨h2, fun c hc => firstTok_no_ws hc⟩
  · obtain ⟨-, -, -⟩ := h
    exact ⟨h2, fun c hc => firstTok_no_ws hc⟩

/-- `pyStrip` is the identity on whitespace-free strings. -/
theorem pyStrip_of_no_ws {s : String} (h : ∀ c ∈ s.data, c.isWhitespace = false) :
    pyStrip s = s := by
  unfold pyStrip
  rw [dropWhile_eq_self_of_none h,
    dropWhile_eq_self_of_none (by intro c hc; exact h c (List.mem_reverse.mp hc)),
    List.reverse_reverse, string_mk_data]

/-- Observable wire-level output: a line delivered to a connection
(`writer.write` + `drain` succeeding), or a connection's stream being closed
with the logged reason (`writer.close()` in `disconnect`). -/
inductive Event where
  | send (w : Nat) (line : String)
  | close (w : Nat) (reason : String)
deriving DecidableEq

/-- The shared state of `ChatServer`: `self.clients` (registry: connection ↦
optional nickname) and `self.nick_to_writer` (directory: nickname ↦
connection). -/
structure ServerState where
  clients : List (Nat × Option String)
  nick_to_writer : List (String × Nat)
deriving DecidableEq

/-- The `HELP` text sent by `/help`. -/
def HELP : String :=
  "\nCommands:\n/nick <name>       Set or change your nickname\n/list              List connected users\n/msg <user> <txt>  Send a private message\n/me <action>       Emote (e.g., /me waves)\n/quit              Disconnect\n"

/-- `self.clients[writer] = None` on accept (`handle_client`). -/
def register (st : ServerState) (w : Nat) : ServerState :=
  { st with clients := dictSet st.clients w none }

/-- The state change of `disconnect`: pop the connection from the registry
and, if it had a nickname, pop that nickname from the directory. -/
def applyDisconnect (st : ServerState) (w : Nat) : ServerState :=
  { clients := dictPop st.clients w,
    nick_to_writer :=
      match (dlookup st.clients w).join with
      | some n => dictPop st.nick_to_writer n
      | none => st.nick_to_writer }

/-- The state change of a successful `/nick`: drop the old nickname mapping
(if any), store the new nickname in the registry, and point the directory
entry for the new nickname at the connection. -/
def applyNick (st : ServerState) (w : Nat) (newnick : String) : ServerState :=
  { clients := dictSet st.clients w (some newnick),
    nick_to_writer :=
      dictSet
        (match (dlookup st.clients w).join with
         | some o => dictPop st.nick_to_writer o
         | none => st.nick_to_writer)
        newnick w }

/-- `safe_send`: write, swallowing any failure (never touches state). -/
def safe_send (fails : Nat → Bool) (w : Nat) (text : String) : List Event :=
  if fails w then [] else [Event.send w text]

/-- The body of `disconnect`, parameterized by the broadcast used for the
departure notice. -/
def mkDisconnect
    (bc : ServerState → String → List Nat → Option (ServerState × List Event))
    (st : ServerState) (w : Nat) (reason : String) :
    Option (ServerState × List Event) :=
  let st1 := applyDisconnect st w
  match (dlookup st.clients w).join with
  | none => some (st1, [Event.close w reason])
  | some n =>
    match bc st1 ("* " ++ n ++ " left (" ++ reason ++ ")") [] with
    | none => none
    | some (st2, evs) => some (st2, Event.close w reason :: evs)

/-- Disconnect each member of a list in turn (the `for w in dead` loop of
`broadcast`). -/
def mkDisconnectList
    (dc : ServerState → Nat → String → Option (ServerState × List Event)) :
    ServerState → List Nat → String → Option (ServerState × List Event)
  | st, [], _ => some (st, [])
  | st, v :: rest, reason =>
    match dc st v reason with
    | none => none
    | some (st1, evs1) =>
      match mkDisconnectList dc st1 rest reason with
      | none => none
      | some (st2, evs2) => some (st2, evs1 ++ evs2)

/-- The body of `broadcast`, parameterized by the disconnect used for dead
connections: prefix the text with the timestamp, write it to every registered
connection not excluded, collect the connections whose write fails, and
disconnect them afterwards with reason "broken pipe". -/
def mkBroadcast (fails : Nat → Bool) (ts : String)
    (dc : ServerState → Nat → String → Option (ServerState × List Event))
    (st : ServerState) (text : String) (exclude : List Nat) :
    Option (ServerState × List Event) :=
  let line := "[" ++ ts ++ "] " ++ text ++ "\n"
  let targets := (keysOf st.clients).filter (fun v => !exclude.contains v)
  let sends := (targets.filter (fun v => !fails v)).map (fun v => Event.send v line)
  match mkDisconnectList dc st (targets.filter fails) "broken pipe" with
  | none => none
  | some (st2, evs) => some (st2, sends ++ evs)

/-- `disconnect`, with fuel bounding the broadcast → disconnect → broadcast
recursion depth (each level of the recursion removes a connection, so fuel
beyond the number of registered connections is never consumed). -/
def disconnectR (fails : Nat → Bool) (ts : String) :
    Nat → ServerState → Nat → String → Option (ServerState × List Event)
  | 0 => mkDisconnect (fun _ _ _ => none)
  | fuel + 1 => mkDisconnect (mkBroadcast fails ts (disconnectR fails ts fuel))

/-- `ChatServer.broadcast`. -/
def broadcast (fuel : Nat) (fails : Nat → Bool) (ts : String)
    (st : ServerState) (text : String) (exclude : List Nat) :
    Option (ServerState × List Event) :=
  mkBroadcast fails ts (disconnectR fails ts fuel) st text exclude

/-- `ChatServer.disconnect`. -/
def disconnect (fuel : Nat) (fails : Nat → Bool) (ts : String)
    (st : ServerState) (w : Nat) (reason : String) :
    Option (ServerState × List Event) :=
  disconnectR fails ts fuel st w reason

/-- `ChatServer.send_line`: a direct reply; a failed write disconnects the
recipient with reason "send failed". -/
def send_line (fuel : Nat) (fails : Nat → Bool) (ts : String)
    (st : ServerState) (w : Nat) (text : String) :
    Option (ServerState × List Event) :=
  if fails w then disconnect fuel fails ts st w "send failed"
  else some (st, [Event.send w text])

/-- `ChatServer.handle_command`: one client line starting with `/`. -/
def handle_command (fuel : Nat) (fails : Nat → Bool) (ts : String)
    (st : ServerState) (w : Nat) (line : String) :
    Option (ServerState × List Event) :=
  let parts := pySplitMax2 line
  let cmd := pyLower (parts.headD "")
  if cmd = "/help" then send_line fuel fails ts st w HELP
  else if cmd = "/quit" then disconnect fuel fails ts st w "quit"
  else if cmd = "/nick" then
    if parts.length < 2 ∨ pyStrip (parts.getD 1 "") = "" then
      send_line fuel fails ts st w "Usage: /nick <name>\n"
    else
      let newnick := pyStrip (parts.getD 1 "")
      if ' ' ∈ newnick.data then
        send_line fuel fails ts st w "Nickname cannot contain spaces.\n"
      else if pyLower newnick ∈ (keysOf st.nick_to_writer).map pyLower then
        send_line fuel fails ts st w "Nickname already in use. Try another.\n"
      else
        let old := (dlookup st.clients w).join
        let st1 := applyNick st w newnick
        match old with
        | some o =>
          broadcast fuel fails ts st1 ("* " ++ o ++ " is now known as " ++ newnick) []
        | none =>
          match send_line fuel fails ts st1 w
              ("OK. You are now " ++ SQ ++ newnick ++ SQ ++ ".\n") with
          | none => none
          | some (st2, evs2) =>
            match broadcast fuel fails ts st2
                ("* " ++ newnick ++ " joined the chat") [w] with
            | none => none
            | some (st3, evs3) => some (st3, evs2 ++ evs3)
  else if cmd = "/list" then
    send_line fuel fails ts st w
      ("Users (" ++ toString (sortCI (keysOf st.nick_to_writer)).length ++ "): "
        ++ joinComma (sortCI (keysOf st.nick_to_writer)) ++ "\n")
  else if cmd = "/msg" then
    if parts.length < 3 then
      send_line fuel fails ts st w "Usage: /msg <user> <message>\n"
    else
      match (dlookup st.clients w).join with
      | none => send_line fuel fails ts st w "Set your nickname first: /nick <name>\n"
      | some sender =>
        match dlookup st.nick_to_writer (parts.getD 1 "") with
        | none =>
          send_line fuel fails ts st w
            ("User " ++ SQ ++ parts.getD 1 "" ++ SQ ++ " not found.\n")
        | some tw =>
          let pmEvs := safe_send fails tw
            ("[" ++ ts ++ "] [PM] <" ++ sender ++ "> " ++ parts.getD 2 "" ++ "\n")
          match send_line fuel fails ts st w
              ("[PM -> " ++ parts.getD 1 "" ++ "] " ++ parts.getD 2 "" ++ "\n") with
          | none => none
          | some (st2, evs2) => some (st2, pmEvs ++ evs2)
  else if cmd = "/me" then
    if parts.length < 2 then send_line fuel fails ts st w "Usage: /me <action>\n"
    else
      match (dlookup st.clients w).join with
      | none => send_line fuel fails ts st w "Set your nickname first: /nick <name>\n"
      | some sender =>
        broadcast fuel fails ts st ("* " ++ sender ++ " " ++ parts.getD 1 "") []
  else send_line fuel fails ts st w "Unknown command. Type /help\n"

/-- `ChatServer.handle_chat`: a plain chat line. -/
def handle_chat (fuel : Nat) (fails : Nat → Bool) (ts : String)
    (st : ServerState) (w : Nat) (text : String) :
    Option (ServerState × List Event) :=
  match (dlookup st.clients w).join with
  | none => send_line fuel fails ts st w "Set your nickname first: /nick <name>\n"
  | some sender => broadcast fuel fails ts st ("<" ++ sender ++ "> " ++ text) []

/-- One iteration of the `handle_client` read loop on an already decoded and
`rstrip`-ped line: skip empty lines, dispatch commands, else treat the line
as public chat. -/
def handle_line (fuel : Nat) (fails : Nat → Bool) (ts : String)
    (st : ServerState) (w : Nat) (line : String) :
    Option (ServerState × List Event) :=
  if line = "" then some (st, [])
  else if startsWithSlash line then handle_command fuel fails ts st w line
  else handle_chat fuel fails ts st w line

theorem dict_value_eq {K V : Type} [DecidableEq K] {d : List (K × V)}
    (hnd : (keysOf d).Nodup) {k : K} {a b : V}
    (h1 : (k, a) ∈ d) (h2 : (k, b) ∈ d) : a = b := by
  have ha := mem_dlookup hnd h1
  have hb := mem_dlookup hnd h2
  rw [ha] at hb
  exact Option.some.inj hb

instance decidableOptForall {A : Type} (o : Option A) (p : A → Prop)
    [DecidablePred p] : Decidable (∀ n, o = some n → p n) :=
  match o with
  | none => isTrue (by intro n h; cases h)
  | some a =>
    if h : p a then isTrue (by intro n hn; cases hn; exact h)
    else isFalse (fun hall => h (hall a rfl))

/-- Well-formedness of the two Python dicts: keys are unique. -/
def WfDicts (st : ServerState) : Prop :=
  (keysOf st.clients).Nodup ∧ (keysOf st.nick_to_writer).Nodup

instance WfDicts_decidable (st : ServerState) : Decidable (WfDicts st) := by
  unfold WfDicts
  infer_instance

/-- The registry/directory invariant: dict keys are unique, every directory
entry points at a connection registered with exactly that nickname, every
registered nickname has its directory entry, no two directory entries agree
up to letter case, and every directory nickname is a nonempty whitespace-free
token. -/
def StInv (st : ServerState) : Prop :=
  (keysOf st.clients).Nodup ∧
  (keysOf st.nick_to_writer).Nodup ∧
  (∀ p ∈ st.nick_to_writer, dlookup st.clients p.2 = some (some p.1)) ∧
  (∀ q ∈ st.clients, ∀ n, q.2 = some n → (n, q.1) ∈ st.nick_to_writer) ∧
  (∀ p ∈ st.nick_to_writer, ∀ q ∈ st.nick_to_writer,
    pyLower p.1 = pyLower q.1 → p = q) ∧
  (∀ p ∈ st.nick_to_writer, p.1.data ≠ [] ∧ ∀ c ∈ p.1.data, c.isWhitespace = false)

theorem StInv.wf {st : ServerState} (h : StInv st) : WfDicts st :=
  ⟨h.1, h.2.1⟩

instance StInv_decidable (st : ServerState) : Decidable (StInv st) := by
  unfold StInv
  infer_instance

theorem Inv_empty : StInv ⟨[], []⟩ := by
  refine ⟨?_, ?_, ?_, ?_, ?_, ?_⟩ <;> simp [keysOf]

/-- `register` (a fresh connection) preserves the invariant. -/
theorem Inv_register {st : ServerState} {w : Nat} (hInv : StInv st)
    (hw : w ∉ keysOf st.clients) : StInv (register st w) := by
  obtain ⟨hnc, hnd, hdr, hrd, hci, hwf⟩ := hInv
  refine ⟨nodup_keys_dictSet none hnc, hnd, ?_, ?_, hci, hwf⟩
  · intro p hp
    have h1 := hdr p hp
    have hpw : p.2 ≠ w := by
      intro he
      rw [he, dlookup_not_mem hw] at h1
      cases h1
    show dlookup (dictSet st.clients w none) p.2 = some (some p.1)
    rw [dictSet_lookup_ne _ _ hpw]
    exact h1
  · intro q hq n hqn
    rcases mem_dictSet_elim hnc hq with h1 | ⟨h1, h2⟩
    · rw [h1] at hqn
      cases hqn
    · exact hrd q h1 n hqn

/-- The registry/directory update of `disconnect` preserves the invariant. -/
theorem Inv_applyDisconnect {st : ServerState} (w : Nat) (hInv : StInv st) :
    StInv (applyDisconnect st w) := by
  obtain ⟨hnc, hnd, hdr, hrd, hci, hwf⟩ := hInv
  unfold applyDisconnect
  rcases hname : (dlookup st.clients w).join with _ | n0
  · simp only [hname]
    refine ⟨nodup_keys_dictPop w hnc, hnd, ?_, ?_, hci, hwf⟩
    · intro p hp
      have h1 := hdr p hp
      have hpw : p.2 ≠ w := by
        intro he
        rw [he] at h1
        rw [h1] at hname
        cases hname
      show dlookup (dictPop st.clients w) p.2 = some (some p.1)
      rw [dictPop_lookup_ne _ hpw]
      exact h1
    · intro q hq n hqn
      exact hrd q (mem_dictPop_elim hq) n hqn
  · simp only [hname]
    have hlw : dlookup st.clients w = some (some n0) := by
      rcases hl : dlookup st.clients w with _ | v
      · rw [hl] at hname; cases hname
      · rw [hl] at hname
        rcases v with _ | n1
        · cases hname
        · cases hname; rfl
    refine ⟨nodup_keys_dictPop w hnc, nodup_keys_dictPop n0 hnd, ?_, ?_, ?_, ?_⟩
    · intro p hp
      have hpd := mem_dictPop_elim hp
      have hne0 : p.1 ≠ n0 := by
        intro he
        exact (not_mem_keys_dictPop hnd) (he ▸ mem_keysOf hp)
      have h1 := hdr p hpd
      have hpw : p.2 ≠ w := by
        intro he
        rw [he, hlw] at h1
        exact hne0 (Option.some.inj (Option.some.inj h1)).symm
      show dlookup (dictPop st.clients w) p.2 = some (some p.1)
      rw [dictPop_lookup_ne _ hpw]
      exact h1
    · intro q hq n hqn
      have hqc := mem_dictPop_elim hq
      have h2 := hrd q hqc n hqn
      have hq1w : q.1 ≠ w := by
        intro he
        exact (not_mem_keys_dictPop hnc) (he ▸ mem_keysOf hq)
      apply mem_dictPop_of_ne
      · exact h2
      · show n ≠ n0
        intro he
        have h3 := hrd (w, some n0) (dlookup_mem hlw) n0 rfl
        rw [he] at h2
        exact hq1w (dict_value_eq hnd h2 h3)
    · intro p hp q hq h
      exact hci p (mem_dictPop_elim hp) q (mem_dictPop_elim hq) h
    · intro p hp
      exact hwf p (mem_dictPop_elim hp)

/-- A successful `/nick` preserves the invariant.  Requires: the new nickname
has no case-insensitive match in the directory, and is a nonempty
whitespace-free token (which the parser guarantees). -/
theorem Inv_applyNick {st : ServerState} (w : Nat) {newnick : String}
    (hInv : StInv st)
    (hcoll : pyLower newnick ∉ (keysOf st.nick_to_writer).map pyLower)
    (hne : newnick.data ≠ [])
    (hws : ∀ c ∈ newnick.data, c.isWhitespace = false) :
    StInv (applyNick st w newnick) := by
  obtain ⟨hnc, hnd, hdr, hrd, hci, hwf⟩ := hInv
  have hnewmem : newnick ∉ keysOf st.nick_to_writer := by
    intro hmem
    exact hcoll (List.mem_map_of_mem pyLower hmem)
  have hdir0sub : ∀ p, p ∈ (match (dlookup st.clients w).join with
      | some o => dictPop st.nick_to_writer o
      | none => st.nick_to_writer) → p ∈ st.nick_to_writer := by
    intro p hp
    rcases hj : (dlookup st.clients w).join with _ | o
    · simp only [hj] at hp
      exact hp
    · simp only [hj] at hp
      exact mem_dictPop_elim hp
  have hnd0 : (keysOf (match (dlookup st.clients w).join with
      | some o => dictPop st.nick_to_writer o
      | none => st.nick_to_writer)).Nodup := by
    rcases hj : (dlookup st.clients w).join with _ | o
    · simp only [hj]
      exact hnd
    · simp only [hj]
      exact nodup_keys_dictPop o hnd
  unfold applyNick
  refine ⟨nodup_keys_dictSet (some newnick) hnc, nodup_keys_dictSet w hnd0,
    ?_, ?_, ?_, ?_⟩
  · intro p hp
    rcases mem_dictSet_elim hnd0 hp with h1 | ⟨h1, h2⟩
    · rw [h1]
      show dlookup (dictSet st.clients w (some newnick)) w = some (some newnick)
      rw [dictSet_lookup_self]
    · have hpd := hdir0sub p h1
      have h3 := hdr p hpd
      have hpw : p.2 ≠ w := by
        intro he
        rw [he] at h3
        rcases hj : (dlookup st.clients w).join with _ | o
        · rw [h3] at hj
          cases hj
        · rw [hj] at h1
          have ho : p.1 = o := by
            rcases hl : dlookup st.clients w with _ | v
            · rw [hl] at hj; cases hj
            · rw [hl] at h3 hj
              rcases v with _ | n1
              · cases hj
              · cases hj
                exact (Option.some.inj (Option.some.inj h3)).symm
          exact (not_mem_keys_dictPop hnd) (ho ▸ mem_keysOf h1)
      show dlookup (dictSet st.clients w (some newnick)) p.2 = some (some p.1)
      rw [dictSet_lookup_ne _ _ hpw]
      exact h3
  · intro q hq n hqn
    rcases mem_dictSet_elim hnc hq with h1 | ⟨h1, h2⟩
    · rw [h1] at hqn
      have : n = newnick := (Option.some.inj hqn).symm
      rw [this, h1]
      exact mem_dictSet_self _ newnick w
    · have h3 := hrd q h1 n hqn
      have hnnew : n ≠ newnick := by
        intro he
        exact hnewmem (he ▸ mem_keysOf h3)
      have h4 : (n, q.1) ∈ (match (dlookup st.clients w).join with
          | some o => dictPop st.nick_to_writer o
          | none => st.nick_to_writer) := by
        rcases hj : (dlookup st.clients w).join with _ | o
        · exact h3
        · apply mem_dictPop_of_ne
          · exact h3
          · show n ≠ o
            intro he
            have hlw : dlookup st.clients w = some (some o) := by
              rcases hl : dlookup st.clients w with _ | v
              · rw [hl] at hj; cases hj
              · rw [hl] at hj
                rcases v with _ | n1
                · cases hj
                · cases hj; rfl
            have h5 := hrd (w, some o) (dlookup_mem hlw) o rfl
            rw [he] at h3
            exact h2 (dict_value_eq hnd h3 h5)
      exact mem_dictSet_of_ne newnick w h4 hnnew
  · intro p hp q hq h
    rcases mem_dictSet_elim hnd0 hp with h1 | ⟨h1, h2⟩ <;>
      rcases mem_dictSet_elim hnd0 hq with h3 | ⟨h3, h4⟩
    · rw [h1, h3]
    · exfalso
      rw [h1] at h
      exact hcoll (h ▸ List.mem_map_of_mem pyLower (mem_keysOf (hdir0sub q h3)))
    · exfalso
      rw [h3] at h
      exact hcoll (h ▸ List.mem_map_of_mem pyLower (mem_keysOf (hdir0sub p h1)))
    · exact hci p (hdir0sub p h1) q (hdir0sub q h3) h
  · intro p hp
    rcases mem_dictSet_elim hnd0 hp with h1 | ⟨h1, h2⟩
    · rw [h1]
      exact ⟨hne, hws⟩
    · exact hwf p (hdir0sub p h1)

theorem mkDisconnectList_preserve
    {dc : ServerState → Nat → String → Option (ServerState × List Event)}
    (hdc : ∀ st w r st' evs, StInv st → dc st w r = some (st', evs) → StInv st') :
    ∀ ws st r st' evs, StInv st →
      mkDisconnectList dc st ws r = some (st', evs) → StInv st' := by
  intro ws
  induction ws with
  | nil =>
    intro st r st' evs h heq
    simp [mkDisconnectList] at heq
    rw [← heq.1]
    exact h
  | cons v rest ih =>
    intro st r st' evs h heq
    unfold mkDisconnectList at heq
    rcases hd : dc st v r with _ | ⟨st1, evs1⟩
    · simp only [hd] at heq
      cases heq
    · simp only [hd] at heq
      rcases hl : mkDisconnectList dc st1 rest r with _ | ⟨st2, evs2⟩
      · simp only [hl] at heq
        cases heq
      · simp only [hl] at heq
        simp at heq
        rw [← heq.1]
        exact ih st1 r st2 evs2 (hdc st v r st1 evs1 h hd) hl

theorem mkBroadcast_preserve {fails : Nat → Bool} {ts : String}
    {dc : ServerState → Nat → String → Option (ServerState × List Event)}
    (hdc : ∀ st w r st' evs, StInv st → dc st w r = some (st', evs) → StInv st') :
    ∀ st text ex st' evs, StInv st →
      mkBroadcast fails ts dc st text ex = some (st', evs) → StInv st' := by
  intro st text ex st' evs h heq
  simp only [mkBroadcast] at heq
  rcases hl : mkDisconnectList dc st
      (((keysOf st.clients).filter (fun v => !ex.contains v)).filter fails)
      "broken pipe" with _ | ⟨st2, evs2⟩
  · simp only [hl] at heq
    cases heq
  · simp only [hl] at heq
    simp at heq
    rw [← heq.1]
    exact mkDisconnectList_preserve hdc _ st _ st2 evs2 h hl

theorem mkDisconnect_preserve
    {bc : ServerState → String → List Nat → Option (ServerState × List Event)}
    (hbc : ∀ st text ex st' evs, StInv st → bc st text ex = some (st', evs) → StInv st') :
    ∀ st w r st' evs, StInv st →
      mkDisconnect bc st w r = some (st', evs) → StInv st' := by
  intro st w r st' evs h heq
  simp only [mkDisconnect] at heq
  rcases hname : (dlookup st.clients w).join with _ | n
  · simp only [hname] at heq
    simp at heq
    rw [← heq.1]
    exact Inv_applyDisconnect w h
  · simp only [hname] at heq
    rcases hb : bc (applyDisconnect st w) ("* " ++ n ++ " left (" ++ r ++ ")") []
        with _ | ⟨st2, evs2⟩
    · simp only [hb] at heq
      cases heq
    · simp only [hb] at heq
      simp at heq
      rw [← heq.1]
      exact hbc _ _ _ st2 evs2 (Inv_applyDisconnect w h) hb

theorem disconnectR_inv (fails : Nat → Bool) (ts : String) :
    ∀ fuel st w r st' evs, StInv st →
      disconnectR fails ts fuel st w r = some (st', evs) → StInv st' := by
  intro fuel
  induction fuel with
  | zero =>
    intro st w r st' evs h heq
    exact mkDisconnect_preserve (fun _ _ _ _ _ _ heq' => by cases heq')
      st w r st' evs h heq
  | succ fuel ih =>
    intro st w r st' evs h heq
    exact mkDisconnect_preserve (mkBroadcast_preserve ih) st w r st' evs h heq

theorem disconnect_inv {fuel : Nat} {fails : Nat → Bool} {ts : String}
    {st : ServerState} {w : Nat} {r : String} {st' : ServerState} {evs : List Event}
    (h : StInv st) (heq : disconnect fuel fails ts st w r = some (st', evs)) :
    StInv st' := disconnectR_inv fails ts fuel st w r st' evs h heq

theorem broadcast_inv {fuel : Nat} {fails : Nat → Bool} {ts : String}
    {st : ServerState} {text : String} {ex : List Nat} {st' : ServerState}
    {evs : List Event} (h : StInv st)
    (heq : broadcast fuel fails ts st text ex = some (st', evs)) : StInv st' :=
  mkBroadcast_preserve (disconnectR_inv fails ts fuel) st text ex st' evs h heq

theorem send_line_inv {fuel : Nat} {fails : Nat → Bool} {ts : String}
    {st : ServerState} {w : Nat} {text : String} {st' : ServerState}
    {evs : List Event} (h : StInv st)
    (heq : send_line fuel fails ts st w text = some (st', evs)) : StInv st' := by
  unfold send_line at heq
  by_cases hf : fails w
  · rw [if_pos hf] at heq
    exact disconnect_inv h heq
  · rw [if_neg hf] at heq
    simp at heq
    rw [← heq.1]
    exact h

theorem handle_command_inv {fuel : Nat} {fails : Nat → Bool} {ts : String}
    {st : ServerState} {w : Nat} {line : String} {st' : ServerState}
    {evs : List Event} (h : StInv st)
    (heq : handle_command fuel fails ts st w line = some (st', evs)) :
    StInv st' := by
  simp only [handle_command] at heq
  split_ifs at heq with h1 h2 h3 h4 h5 h6 h7 h8 h9 h10 h11
  · exact send_line_inv h heq
  · exact disconnect_inv h heq
  · exact send_line_inv h heq
  · exact send_line_inv h heq
  · exact send_line_inv h heq
  · -- successful /nick
    push_neg at h4
    rcases hp : pySplitMax2 line with _ | ⟨t1, ps⟩
    · rw [hp] at h4
      simp at h4
    · rcases ps with _ | ⟨t2, rest⟩
      · rw [hp] at h4
        simp at h4
      · obtain ⟨hne2, hws2⟩ := pySplitMax2_token2 hp
        have hstrip : pyStrip t2 = t2 := pyStrip_of_no_ws hws2
        have hgd : (pySplitMax2 line).getD 1 "" = t2 := by rw [hp]; rfl
        rw [hgd, hstrip] at heq h6
        have hInv1 : StInv (applyNick st w t2) := Inv_applyNick w h h6 hne2 hws2
        rcases hold : (dlookup st.clients w).join with _ | o <;>
          simp only [hold] at heq
        · rcases hs : send_line fuel fails ts (applyNick st w t2) w
              ("OK. You are now " ++ SQ ++ t2 ++ SQ ++ ".\n") with _ | ⟨st2, evs2⟩ <;>
            simp only [hs] at heq
          · cases heq
          · rcases hb : broadcast fuel fails ts st2
                ("* " ++ t2 ++ " joined the chat") [w] with _ | ⟨st3, evs3⟩ <;>
              simp only [hb] at heq
            · cases heq
            · simp at heq
              rw [← heq.1]
              exact broadcast_inv (send_line_inv hInv1 hs) hb
        · exact broadcast_inv hInv1 heq
  · exact send_line_inv h heq
  · exact send_line_inv h heq
  · -- /msg with both arguments
    rcases hsnd : (dlookup st.clients w).join with _ | sender <;>
      simp only [hsnd] at heq
    · exact send_line_inv h heq
    · rcases htw : dlookup st.nick_to_writer ((pySplitMax2 line).getD 1 "")
          with _ | tw <;> simp only [htw] at heq
      · exact send_line_inv h heq
      · rcases hse : send_line fuel fails ts st w
            ("[PM -> " ++ (pySplitMax2 line).getD 1 "" ++ "] "
              ++ (pySplitMax2 line).getD 2 "" ++ "\n") with _ | ⟨st2, evs2⟩ <;>
          simp only [hse] at heq
        · cases heq
        · simp at heq
          rw [← heq.1]
          exact send_line_inv h hse
  · exact send_line_inv h heq
  · -- /me with an action
    rcases hsnd : (dlookup st.clients w).join with _ | sender <;>
      simp only [hsnd] at heq
    · exact send_line_inv h heq
    · exact broadcast_inv h heq
  · exact send_line_inv h heq

theorem handle_chat_inv {fuel : Nat} {fails : Nat → Bool} {ts : String}
    {st : ServerState} {w : Nat} {text : String} {st' : ServerState}
    {evs : List Event} (h : StInv st)
    (heq : handle_chat fuel fails ts st w text = some (st', evs)) : StInv st' := by
  unfold handle_chat at heq
  rcases hsnd : (dlookup st.clients w).join with _ | sender <;>
    simp only [hsnd] at heq
  · exact send_line_inv h heq
  · exact broadcast_inv h heq

theorem handle_line_inv {fuel : Nat} {fails : Nat → Bool} {ts : String}
    {st : ServerState} {w : Nat} {line : String} {st' : ServerState}
    {evs : List Event} (h : StInv st)
    (heq : handle_line fuel fails ts st w line = some (st', evs)) : StInv st' := by
  unfold handle_line at heq
  split_ifs at heq with h1 h2
  · simp at heq
    rw [← heq.1]
    exact h
  · exact handle_command_inv h heq
  · exact handle_chat_inv h heq

/-- Server states reachable from startup (`clients` and `nick_to_writer`
empty): a fresh connection is registered, a received line is handled (this
covers `/nick`, `/quit` and every other command, public chat, and any
cascading disconnects caused by write failures), or a connection is
disconnected directly (client closed / transport error / server error). -/
inductive Reachable : ServerState → Prop where
  | init : Reachable ⟨[], []⟩
  | reg {st : ServerState} (w : Nat) : Reachable st → w ∉ keysOf st.clients →
      Reachable (register st w)
  | ln (fuel : Nat) (fails : Nat → Bool) (ts : String) (w : Nat) (s : String)
      {st st' : ServerState} {evs : List Event} : Reachable st →
      handle_line fuel fails ts st w s = some (st', evs) → Reachable st'
  | dc (fuel : Nat) (fails : Nat → Bool) (ts : String) (w : Nat) (reason : String)
      {st st' : ServerState} {evs : List Event} : Reachable st →
      disconnect fuel fails ts st w reason = some (st', evs) → Reachable st'

/-- Every reachable state satisfies the registry/directory invariant. -/
theorem Reachable_StInv {st : ServerState} (h : Reachable st) : StInv st := by
  induction h with
  | init => exact Inv_empty
  | reg w _ hfresh ih => exact Inv_register ih hfresh
  | ln fuel fails ts w s _ heq ih => exact handle_line_inv ih heq
  | dc fuel fails ts w reason _ heq ih => exact disconnect_inv ih heq

/-- Claim C1: for every sequence of register, line-handling (in particular
`/nick`) and disconnect operations, the directory never maps two distinct
connections to the same case-insensitive nickname, and a connection's
registry nickname is non-null exactly when the directory has an entry
pointing to that connection. -/
theorem c1_directory_invariant {st : ServerState} (hr : Reachable st) :
    (∀ p ∈ st.nick_to_writer, ∀ q ∈ st.nick_to_writer,
      pyLower p.1 = pyLower q.1 → p.2 = q.2) ∧
    (∀ w : Nat, (∃ n, dlookup st.clients w = some (some n)) ↔
      (∃ n, (n, w) ∈ st.nick_to_writer)) := by
  obtain ⟨hnc, hnd, hdr, hrd, hci, hwf⟩ := Reachable_StInv hr
  constructor
  · intro p hp q hq hl
    rw [hci p hp q hq hl]
  · intro w
    constructor
    · rintro ⟨n, hn⟩
      exact ⟨n, hrd (w, some n) (dlookup_mem hn) n rfl⟩
    · rintro ⟨n, hn⟩
      exact ⟨n, hdr (n, w) hn⟩

theorem reach_step_nick_alice :
    handle_line 1 (fun _ => false) "12:00" ⟨[(0, none)], []⟩ 0 "/nick alice"
      = some (⟨[(0, some "alice")], [("alice", 0)]⟩,
          [Event.send 0 ("OK. You are now " ++ SQ ++ "alice" ++ SQ ++ ".\n")]) := by
  decide

/-- Witness for C1 at a concrete reachable state: one connection registered
and then named `alice`. -/
theorem c1_directory_invariant_witness :
    (∀ p ∈ ([("alice", 0)] : List (String × Nat)), ∀ q ∈ ([("alice", 0)] : List (String × Nat)),
      pyLower p.1 = pyLower q.1 → p.2 = q.2) ∧
    (∀ w : Nat, (∃ n, dlookup [(0, some "alice")] w = some (some n)) ↔
      (∃ n, (n, w) ∈ ([("alice", 0)] : List (String × Nat)))) :=
  c1_directory_invariant
    (Reachable.ln 1 (fun _ => false) "12:00" 0 "/nick alice"
      (Reachable.reg 0 Reachable.init (by decide)) reach_step_nick_alice)

theorem filter_nofail_all (l : List Nat) :
    l.filter (fun v => !(fun _ : Nat => false) v) = l := by
  have hfix : (fun v : Nat => !(fun _ : Nat => false) v) = fun _ => true := by
    funext v
    rfl
  rw [hfix, List.filter_true]

theorem filter_nofail_none (l : List Nat) :
    l.filter (fun _ : Nat => false) = [] := List.filter_false l

theorem filter_exclude_nil (l : List Nat) :
    l.filter (fun v => !([] : List Nat).contains v) = l := by
  have hfix : (fun v : Nat => !([] : List Nat).contains v) = fun _ => true := by
    funext v
    rfl
  rw [hfix, List.filter_true]

/-- When no write fails, `broadcast` delivers the timestamped line to every
registered connection outside the exclude set and changes nothing. -/
theorem broadcast_nofail (fuel : Nat) (ts : String) (st : ServerState)
    (text : String) (exclude : List Nat) :
    broadcast fuel (fun _ => false) ts st text exclude =
      some (st, ((keysOf st.clients).filter (fun v => !exclude.contains v)).map
        (fun v => Event.send v ("[" ++ ts ++ "] " ++ text ++ "\n"))) := by
  simp only [broadcast, mkBroadcast]
  rw [filter_nofail_all, filter_nofail_none]
  simp [mkDisconnectList]

theorem send_line_nofail (fuel : Nat) (ts : String) (st : ServerState) (w : Nat)
    (text : String) :
    send_line fuel (fun _ => false) ts st w text = some (st, [Event.send w text]) := by
  unfold send_line
  simp

theorem applyDisconnect_not_mem {st : ServerState} {w : Nat}
    (h : w ∉ keysOf st.clients) : applyDisconnect st w = st := by
  unfold applyDisconnect
  rw [dlookup_not_mem h]
  simp [dictPop_not_mem h]

/-- Disconnecting a connection that holds a nickname, when no write fails:
the connection and its nickname are removed, the stream is closed, and every
remaining registered connection gets one departure line. -/
theorem disconnect_nofail {st : ServerState} {w : Nat} {N : String}
    (fuel : Nat) (ts reason : String)
    (hname : (dlookup st.clients w).join = some N) :
    disconnect (fuel + 1) (fun _ => false) ts st w reason =
      some (applyDisconnect st w,
        Event.close w reason ::
          (keysOf (applyDisconnect st w).clients).map
            (fun v => Event.send v
              ("[" ++ ts ++ "] " ++ ("* " ++ N ++ " left (" ++ reason ++ ")") ++ "\n"))) := by
  unfold disconnect disconnectR mkDisconnect
  simp only [hname]
  have hb : mkBroadcast (fun _ => false) ts (disconnectR (fun _ => false) ts fuel)
      (applyDisconnect st w) ("* " ++ N ++ " left (" ++ reason ++ ")") [] =
      some (applyDisconnect st w,
        (keysOf (applyDisconnect st w).clients).map
          (fun v => Event.send v
            ("[" ++ ts ++ "] " ++ ("* " ++ N ++ " left (" ++ reason ++ ")") ++ "\n"))) := by
    have := broadcast_nofail fuel ts (applyDisconnect st w)
      ("* " ++ N ++ " left (" ++ reason ++ ")") []
    unfold broadcast at this
    rw [filter_exclude_nil] at this
    exact this
  rw [hb]

/-- Disconnecting a connection with no nickname (or not registered at all):
the stream is closed and no departure notice is broadcast. -/
theorem disconnect_no_nick {st : ServerState} {w : Nat} (fuel : Nat)
    (fails : Nat → Bool) (ts reason : String)
    (hname : (dlookup st.clients w).join = none) :
    disconnect fuel fails ts st w reason =
      some (applyDisconnect st w, [Event.close w reason]) := by
  unfold disconnect
  cases fuel with
  | zero =>
    unfold disconnectR mkDisconnect
    simp only [hname]
  | succ fuel =>
    unfold disconnectR mkDisconnect
    simp only [hname]

theorem perm_insertCI (x : String) (l : List String) :
    (insertCI x l).Perm (x :: l) := by
  induction l with
  | nil => exact List.Perm.refl _
  | cons y ys ih =>
    unfold insertCI
    by_cases h : ciLE x y
    · rw [if_pos h]
    · rw [if_neg h]
      exact (ih.cons y).trans (List.Perm.swap x y ys)

theorem ciLE_trans {a b c : String} (h1 : ciLE a b) (h2 : ciLE b c) : ciLE a c :=
  le_trans h1 h2

theorem ciLE_total_of_not {a b : String} (h : ¬ ciLE a b) : ciLE b a :=
  le_of_not_le h

theorem sorted_insertCI {x : String} {l : List String}
    (h : List.Sorted ciLE l) : List.Sorted ciLE (insertCI x l) := by
  induction l with
  | nil => simp [insertCI]
  | cons y ys ih =>
    rw [List.sorted_cons] at h
    obtain ⟨hy, hys⟩ := h
    unfold insertCI
    by_cases hxy : ciLE x y
    · rw [if_pos hxy, List.sorted_cons]
      refine ⟨?_, List.sorted_cons.mpr ⟨hy, hys⟩⟩
      intro b hb
      rcases List.mem_cons.mp hb with h1 | h1
      · rw [h1]
        exact hxy
      · exact ciLE_trans hxy (hy b h1)
    · rw [if_neg hxy, List.sorted_cons]
      refine ⟨?_, ih hys⟩
      intro b hb
      rcases List.mem_cons.mp ((perm_insertCI x ys).mem_iff.mp hb) with h1 | h1
      · rw [h1]
        exact ciLE_total_of_not hxy
      · exact hy b h1

theorem sorted_sortCI (l : List String) : List.Sorted ciLE (sortCI l) := by
  induction l with
  | nil => simp [sortCI]
  | cons x xs ih => exact sorted_insertCI ih

theorem perm_sortCI (l : List String) : (sortCI l).Perm l := by
  induction l with
  | nil => exact List.Perm.refl _
  | cons x xs ih => exact (perm_insertCI x (sortCI xs)).trans (ih.cons x)

theorem headD_cons_str (a : String) (rest : List String) :
    (a :: rest).headD "" = a := rfl

theorem getD_one_str (a b : String) (rest : List String) :
    (a :: b :: rest).getD 1 "" = b := rfl

theorem getD_two_str (a b c : String) (rest : List String) :
    (a :: b :: c :: rest).getD 2 "" = c := rfl

/-- Shared evaluation: a `/nick` whose token argument collides
case-insensitively with a directory entry is answered with exactly the
rejection line, and the state is untouched. -/
theorem nick_collision_reply (fuel : Nat) (ts : String) (st : ServerState)
    (w : Nat) (line nn : String)
    (hp : pySplitMax2 line = ["/nick", nn])
    (hcoll : pyLower nn ∈ (keysOf st.nick_to_writer).map pyLower) :
    handle_command fuel (fun _ => false) ts st w line =
      some (st, [Event.send w "Nickname already in use. Try another.\n"]) := by
  obtain ⟨hne2, hws2⟩ := pySplitMax2_token2 hp
  have hstrip : pyStrip nn = nn := pyStrip_of_no_ws hws2
  have hnnne : nn ≠ "" := fun he => hne2 (by rw [he])
  have hsp : ¬ (' ' ∈ nn.data) := fun hmem => absurd (hws2 ' ' hmem) (by decide)
  simp only [handle_command, hp, headD_cons_str, getD_one_str, hstrip]
  have e1 : pyLower "/nick" = "/nick" := by decide
  have e2 : ¬ (pyLower "/nick" = "/help") := by decide
  have e3 : ¬ (pyLower "/nick" = "/quit") := by decide
  have e4 : ¬ (["/nick", nn].length < 2 ∨ nn = "") := by
    rintro (h | h)
    · simp at h
    · exact hnnne h
  rw [if_neg e2, if_neg e3, if_pos e1, if_neg e4, if_neg hsp, if_pos hcoll]
  exact send_line_nofail fuel ts st w _

/-- Claim C2: a `/nick` that collides case-insensitively with a nickname
already in the directory sends exactly "Nickname already in use. Try
another.\n" to the issuer, leaves registry and directory unchanged (the
issuer keeps its previous nickname state, nickname-less included), and the
connection stays open (the only event is the single reply; no close event). -/
theorem c2_nick_collision_rejected (fuel : Nat) (ts : String) (st : ServerState)
    (w : Nat) (line nn : String)
    (hp : pySplitMax2 line = ["/nick", nn])
    (hcoll : pyLower nn ∈ (keysOf st.nick_to_writer).map pyLower) :
    handle_command fuel (fun _ => false) ts st w line =
      some (st, [Event.send w "Nickname already in use. Try another.\n"]) :=
  nick_collision_reply fuel ts st w line nn hp hcoll

/-- Witness for C2: `B` (connection 1, nickname-less) asks for `Alice` while
`alice` is taken by connection 0. -/
theorem c2_nick_collision_rejected_witness :
    handle_command 2 (fun _ => false) "12:00"
      ⟨[(0, some "alice"), (1, none)], [("alice", 0)]⟩ 1 "/nick Alice"
      = some (⟨[(0, some "alice"), (1, none)], [("alice", 0)]⟩,
          [Event.send 1 "Nickname already in use. Try another.\n"]) :=
  c2_nick_collision_rejected 2 "12:00"
    ⟨[(0, some "alice"), (1, none)], [("alice", 0)]⟩ 1 "/nick Alice" "Alice"
    (by decide) (by decide)

/-- Claim C10 (implicit): a connection whose nickname is `N` issuing
`/nick M` with `M` equal to `N` up to letter case (including `M = N`) is
rejected with the name-taken message and keeps its nickname: the
case-insensitive collision check also matches the issuer's own directory
entry. -/
theorem c10_nick_own_case_change_rejected (fuel : Nat) (ts : String)
    (st : ServerState) (w : Nat) (line M N : String)
    (hr : StInv st)
    (hw : dlookup st.clients w = some (some N))
    (hp : pySplitMax2 line = ["/nick", M])
    (hlow : pyLower M = pyLower N) :
    handle_command fuel (fun _ => false) ts st w line =
      some (st, [Event.send w "Nickname already in use. Try another.\n"]) ∧
    dlookup st.clients w = some (some N) := by
  obtain ⟨hnc, hnd, hdr, hrd, hci, hwf⟩ := hr
  have hmem : (N, w) ∈ st.nick_to_writer := hrd (w, some N) (dlookup_mem hw) N rfl
  have hcoll : pyLower M ∈ (keysOf st.nick_to_writer).map pyLower := by
    rw [hlow]
    exact List.mem_map_of_mem pyLower (mem_keysOf hmem)
  exact ⟨nick_collision_reply fuel ts st w line M hp hcoll, hw⟩

/-- Witness for C10: connection 0 is `Bob` and sends `/nick bob`. -/
theorem c10_nick_own_case_change_rejected_witness :
    (handle_command 2 (fun _ => false) "12:00"
      ⟨[(0, some "Bob")], [("Bob", 0)]⟩ 0 "/nick bob"
      = some (⟨[(0, some "Bob")], [("Bob", 0)]⟩,
          [Event.send 0 "Nickname already in use. Try another.\n"]) ∧
    dlookup (⟨[(0, some "Bob")], [("Bob", 0)]⟩ : ServerState).clients 0
      = some (some "Bob")) :=
  c10_nick_own_case_change_rejected 2 "12:00" ⟨[(0, some "Bob")], [("Bob", 0)]⟩
    0 "/nick bob" "bob" "Bob" (by decide) (by decide) (by decide) (by decide)

/-- Evaluation of the code at the C3 failing input: a nickname-less
connection sends "/nick foo bar"; `split(maxsplit=2)` makes `parts[1]` the
whitespace-free token "foo", so the unreachable "Nickname cannot contain
spaces." rejection is skipped and the nickname is set to "foo" (with the
private confirmation; the join notice reaches nobody else). -/
theorem c3_nick_space_eval :
    handle_command 1 (fun _ => false) "12:00" ⟨[(0, none)], []⟩ 0 "/nick foo bar"
      = some (⟨[(0, some "foo")], [("foo", 0)]⟩,
          [Event.send 0 ("OK. You are now " ++ SQ ++ "foo" ++ SQ ++ ".\n")]) := by
  decide

/-- Claim C8: disconnect is idempotent.  Disconnecting a connection that is
no longer registered leaves the registry and the directory exactly as they
were and produces no send event to anybody (the only event is the harmless
re-close of the connection's own already-closed stream); in particular no
second departure broadcast is sent. -/
theorem c8_disconnect_idempotent (fuel : Nat) (fails : Nat → Bool)
    (ts reason : String) (st : ServerState) (w : Nat)
    (h : w ∉ keysOf st.clients) :
    disconnect fuel fails ts st w reason = some (st, [Event.close w reason]) := by
  have hn : (dlookup st.clients w).join = none := by
    rw [dlookup_not_mem h]
    rfl
  rw [disconnect_no_nick fuel fails ts reason hn, applyDisconnect_not_mem h]

/-- Witness for C8: a second `/quit`-style disconnect of connection 0, which
is already gone, while connection 1 (nickname `a`) is untouched. -/
theorem c8_disconnect_idempotent_witness :
    disconnect 3 (fun _ => false) "10:00" ⟨[(1, some "a")], [("a", 1)]⟩ 0 "quit"
      = some (⟨[(1, some "a")], [("a", 1)]⟩, [Event.close 0 "quit"]) :=
  c8_disconnect_idempotent 3 (fun _ => false) "10:00" "quit"
    ⟨[(1, some "a")], [("a", 1)]⟩ 0 (by decide)

/-- Under the invariant, the directory size equals the number of registered
connections with a non-null nickname. -/
theorem dir_length_eq_named {st : ServerState} (h : StInv st) :
    (keysOf st.nick_to_writer).length =
      (st.clients.filter (fun q => q.2.isSome)).length := by
  obtain ⟨hnc, hnd, hdr, hrd, hci, hwf⟩ := h
  have hdirnd : st.nick_to_writer.Nodup := List.Nodup.of_map Prod.fst hnd
  have hclnd : st.clients.Nodup := List.Nodup.of_map Prod.fst hnc
  have hinj : Function.Injective
      (fun p : String × Nat => (p.2, some p.1)) := by
    intro a b hab
    have h1 := congrArg Prod.fst hab
    have h2 := congrArg Prod.snd hab
    simp at h1 h2
    exact Prod.ext h2 h1
  have hnd1 : (st.nick_to_writer.map (fun p => (p.2, some p.1))).Nodup :=
    hdirnd.map hinj
  have hnd2 : (st.clients.filter (fun q => q.2.isSome)).Nodup :=
    hclnd.filter _
  have hmem : ∀ x, x ∈ st.nick_to_writer.map (fun p => (p.2, some p.1)) ↔
      x ∈ st.clients.filter (fun q => q.2.isSome) := by
    intro x
    constructor
    · intro hx
      rcases List.mem_map.mp hx with ⟨p, hp, he⟩
      have h2 : (p.2, some p.1) ∈ st.clients := dlookup_mem (hdr p hp)
      rw [← he]
      exact List.mem_filter.mpr ⟨h2, rfl⟩
    · intro hx
      obtain ⟨hx1, hx2⟩ := List.mem_filter.mp hx
      rcases hx2' : x.2 with _ | n
      · rw [hx2'] at hx2
        cases hx2
      · have h3 := hrd x hx1 n hx2'
        refine List.mem_map.mpr ⟨(n, x.1), h3, ?_⟩
        show (x.1, some n) = x
        rw [← hx2']
    
  have hperm := (List.perm_ext_iff_of_nodup hnd1 hnd2).mpr hmem
  calc (keysOf st.nick_to_writer).length
      = st.nick_to_writer.length := List.length_map _ _
    _ = (st.nick_to_writer.map (fun p => (p.2, some p.1))).length :=
        (List.length_map _ _).symm
    _ = _ := hperm.length_eq

/-- Claim C7: the `/list` reply lists all current nicknames sorted
case-insensitively and comma-joined, the state is untouched, and the
reported count equals the number of connections whose registry nickname is
non-null. -/
theorem c7_list_reply (fuel : Nat) (ts : String) (st : ServerState) (w : Nat)
    (h : StInv st) :
    handle_command fuel (fun _ => false) ts st w "/list" =
      some (st, [Event.send w
        ("Users (" ++ toString (sortCI (keysOf st.nick_to_writer)).length ++ "): "
          ++ joinComma (sortCI (keysOf st.nick_to_writer)) ++ "\n")]) ∧
    List.Sorted ciLE (sortCI (keysOf st.nick_to_writer)) ∧
    (sortCI (keysOf st.nick_to_writer)).Perm (keysOf st.nick_to_writer) ∧
    (sortCI (keysOf st.nick_to_writer)).length =
      (st.clients.filter (fun q => q.2.isSome)).length := by
  refine ⟨?_, sorted_sortCI _, perm_sortCI _, ?_⟩
  · have hp : pySplitMax2 "/list" = ["/list"] := by decide
    simp only [handle_command, hp, headD_cons_str]
    have e1 : ¬ (pyLower "/list" = "/help") := by decide
    have e2 : ¬ (pyLower "/list" = "/quit") := by decide
    have e3 : ¬ (pyLower "/list" = "/nick") := by decide
    have e4 : pyLower "/list" = "/list" := by decide
    rw [if_neg e1, if_neg e2, if_neg e3, if_pos e4]
    exact send_line_nofail fuel ts st w _
  · rw [(perm_sortCI _).length_eq]
    exact dir_length_eq_named h

/-- Witness for C7: directory `bob`, `Alice` plus one nickname-less
connection; the reply is sorted case-insensitively with count 2. -/
theorem c7_list_reply_witness :
    (handle_command 2 (fun _ => false) "09:00"
      ⟨[(0, some "bob"), (1, some "Alice"), (2, none)], [("bob", 0), ("Alice", 1)]⟩
      2 "/list" =
      some (⟨[(0, some "bob"), (1, some "Alice"), (2, none)], [("bob", 0), ("Alice", 1)]⟩,
        [Event.send 2
          ("Users (" ++ toString (sortCI (keysOf ([("bob", 0), ("Alice", 1)] : List (String × Nat)))).length ++ "): "
            ++ joinComma (sortCI (keysOf ([("bob", 0), ("Alice", 1)] : List (String × Nat)))) ++ "\n")]) ∧
    List.Sorted ciLE (sortCI (keysOf ([("bob", 0), ("Alice", 1)] : List (String × Nat)))) ∧
    (sortCI (keysOf ([("bob", 0), ("Alice", 1)] : List (String × Nat)))).Perm
      (keysOf ([("bob", 0), ("Alice", 1)] : List (String × Nat))) ∧
    (sortCI (keysOf ([("bob", 0), ("Alice", 1)] : List (String × Nat)))).length =
      (([(0, some "bob"), (1, some "Alice"), (2, none)] :
        List (Nat × Option String)).filter (fun q => q.2.isSome)).length) :=
  c7_list_reply 2 "09:00"
    ⟨[(0, some "bob"), (1, some "Alice"), (2, none)], [("bob", 0), ("Alice", 1)]⟩
    2 (by decide)

/-- Claim C6: a `/msg` (with both arguments) from a sender with a nickname to
a target absent from the directory leaves the registry and the directory
unchanged and sends exactly one "not found" line to the sender; nothing is
delivered to anyone else. -/
theorem c6_msg_not_found (fuel : Nat) (ts : String) (st : ServerState)
    (w : Nat) (line target text sender : String)
    (hp : pySplitMax2 line = ["/msg", target, text])
    (hs : (dlookup st.clients w).join = some sender)
    (ht : dlookup st.nick_to_writer target = none) :
    handle_command fuel (fun _ => false) ts st w line =
      some (st, [Event.send w ("User " ++ SQ ++ target ++ SQ ++ " not found.\n")]) := by
  simp only [handle_command, hp, headD_cons_str, getD_one_str, getD_two_str]
  have e1 : ¬ (pyLower "/msg" = "/help") := by decide
  have e2 : ¬ (pyLower "/msg" = "/quit") := by decide
  have e3 : ¬ (pyLower "/msg" = "/nick") := by decide
  have e4 : ¬ (pyLower "/msg" = "/list") := by decide
  have e5 : pyLower "/msg" = "/msg" := by decide
  have e6 : ¬ (["/msg", target, text].length < 3) := by simp
  rw [if_neg e1, if_neg e2, if_neg e3, if_neg e4, if_pos e5, if_neg e6]
  simp only [hs, ht]
  exact send_line_nofail fuel ts st w _

/-- Witness for C6: `alice` sends `/msg bob hi` while no `bob` is present. -/
theorem c6_msg_not_found_witness :
    handle_command 2 (fun _ => false) "12:00"
      ⟨[(0, some "alice")], [("alice", 0)]⟩ 0 "/msg bob hi" =
      some (⟨[(0, some "alice")], [("alice", 0)]⟩,
        [Event.send 0 ("User " ++ SQ ++ "bob" ++ SQ ++ " not found.\n")]) :=
  c6_msg_not_found 2 "12:00" ⟨[(0, some "alice")], [("alice", 0)]⟩ 0
    "/msg bob hi" "bob" "hi" "alice" (by decide) (by decide) (by decide)

/-- Parsing `"/nick " ++ N` for a nonempty whitespace-free `N` yields exactly
the two tokens. -/
theorem pySplit_nick_token {N : String} (hne : N.data ≠ [])
    (hws : ∀ c ∈ N.data, c.isWhitespace = false) :
    pySplitMax2 ("/nick " ++ N) = ["/nick", N] := by
  have hdata : ("/nick " ++ N).data
      = '/' :: 'n' :: 'i' :: 'c' :: 'k' :: ' ' :: N.data := rfl
  have d1 : ('/' :: 'n' :: 'i' :: 'c' :: 'k' :: ' ' :: N.data).dropWhile
      Char.isWhitespace = '/' :: 'n' :: 'i' :: 'c' :: 'k' :: ' ' :: N.data := by
    rw [List.dropWhile_cons, if_neg (by decide)]
  have d2 : ('/' :: 'n' :: 'i' :: 'c' :: 'k' :: ' ' :: N.data).takeWhile
      (fun c => !c.isWhitespace) = ['/', 'n', 'i', 'c', 'k'] := by
    rw [List.takeWhile_cons, if_pos (by decide), List.takeWhile_cons,
      if_pos (by decide), List.takeWhile_cons, if_pos (by decide),
      List.takeWhile_cons, if_pos (by decide), List.takeWhile_cons,
      if_pos (by decide), List.takeWhile_cons, if_neg (by decide)]
  have d3 : ('/' :: 'n' :: 'i' :: 'c' :: 'k' :: ' ' :: N.data).dropWhile
      (fun c => !c.isWhitespace) = ' ' :: N.data := by
    rw [List.dropWhile_cons, if_pos (by decide), List.dropWhile_cons,
      if_pos (by decide), List.dropWhile_cons, if_pos (by decide),
      List.dropWhile_cons, if_pos (by decide), List.dropWhile_cons,
      if_pos (by decide), List.dropWhile_cons, if_neg (by decide)]
  have d4 : (' ' :: N.data).dropWhile Char.isWhitespace = N.data := by
    rw [List.dropWhile_cons, if_pos (by decide)]
    exact dropWhile_eq_self_of_none hws
  have d5 : N.data.takeWhile (fun c => !c.isWhitespace) = N.data := by
    apply takeWhile_eq_self_of_all
    intro c hc
    simp [hws c hc]
  have d6 : N.data.dropWhile (fun c => !c.isWhitespace) = [] := by
    apply dropWhile_eq_nil_of_all
    intro c hc
    simp [hws c hc]
  unfold pySplitMax2 firstTok restAfterTok
  rw [hdata, d1, d2, d3, d4, d5]
  rw [if_neg (by decide), if_neg hne, d6]
  rw [if_pos (by decide)]

/-- Shared evaluation: a `/nick` whose token argument has no case-insensitive
match in the directory succeeds and installs the nickname in both structures
(the state becomes `applyNick st w nn`). -/
theorem nick_success_sets (fuel : Nat) (ts : String) (st : ServerState)
    (w : Nat) (nn : String)
    (hne : nn.data ≠ []) (hws : ∀ c ∈ nn.data, c.isWhitespace = false)
    (hcoll : pyLower nn ∉ (keysOf st.nick_to_writer).map pyLower) :
    ∃ evs, handle_command fuel (fun _ => false) ts st w ("/nick " ++ nn) =
      some (applyNick st w nn, evs) := by
  have hp : pySplitMax2 ("/nick " ++ nn) = ["/nick", nn] :=
    pySplit_nick_token hne hws
  have hstrip : pyStrip nn = nn := pyStrip_of_no_ws hws
  simp only [handle_command, hp, headD_cons_str, getD_one_str, hstrip]
  have e1 : ¬ (pyLower "/nick" = "/help") := by decide
  have e2 : ¬ (pyLower "/nick" = "/quit") := by decide
  have e3 : pyLower "/nick" = "/nick" := by decide
  have hnnne : nn ≠ "" := fun he => hne (by rw [he])
  have e4 : ¬ (["/nick", nn].length < 2 ∨ nn = "") := by
    rintro (h | h)
    · simp at h
    · exact hnnne h
  have e5 : ¬ (' ' ∈ nn.data) := fun hmem => absurd (hws ' ' hmem) (by decide)
  rw [if_neg e1, if_neg e2, if_pos e3, if_neg e4, if_neg e5, if_neg hcoll]
  rcases hold : (dlookup st.clients w).join with _ | o
  · simp only [hold, send_line_nofail, broadcast_nofail]
    exact ⟨_, rfl⟩
  · simp only [hold, broadcast_nofail]
    exact ⟨_, rfl⟩

/-- Claim C5: disconnecting a connection holding nickname `N` removes it from
both the registry and the directory, emits exactly one departure line
(containing `N` and the reason) to each remaining registered connection, and
immediately afterwards `/nick N` from any other connection succeeds: `N` is
free for reuse and ends up mapped to that connection. -/
theorem c5_disconnect_frees_nickname (fuel : Nat) (ts reason : String)
    (st : ServerState) (w w' : Nat) (N : String)
    (h : StInv st)
    (hw : dlookup st.clients w = some (some N))
    (hw' : w' ∈ keysOf st.clients) (hne : w' ≠ w) :
    ∃ st'' evs',
      disconnect (fuel + 1) (fun _ => false) ts st w reason =
        some (applyDisconnect st w,
          Event.close w reason ::
            (keysOf (applyDisconnect st w).clients).map
              (fun v => Event.send v
                ("[" ++ ts ++ "] " ++ ("* " ++ N ++ " left (" ++ reason ++ ")") ++ "\n"))) ∧
      (applyDisconnect st w).clients = dictPop st.clients w ∧
      (applyDisconnect st w).nick_to_writer = dictPop st.nick_to_writer N ∧
      dlookup (applyDisconnect st w).nick_to_writer N = none ∧
      (keysOf (applyDisconnect st w).clients).Nodup ∧
      w ∉ keysOf (applyDisconnect st w).clients ∧
      handle_command (fuel + 1) (fun _ => false) ts (applyDisconnect st w) w'
        ("/nick " ++ N) = some (st'', evs') ∧
      dlookup st''.nick_to_writer N = some w' ∧
      dlookup st''.clients w' = some (some N) := by
  obtain ⟨hnc, hnd, hdr, hrd, hci, hwf⟩ := h
  have hname : (dlookup st.clients w).join = some N := by
    rw [hw]
    rfl
  have hmemN : (N, w) ∈ st.nick_to_writer := hrd (w, some N) (dlookup_mem hw) N rfl
  obtain ⟨hneN, hwsN⟩ := hwf (N, w) hmemN
  have hdir' : (applyDisconnect st w).nick_to_writer = dictPop st.nick_to_writer N := by
    unfold applyDisconnect
    simp only [hname]
  have hcoll' : pyLower N ∉
      (keysOf (applyDisconnect st w).nick_to_writer).map pyLower := by
    rw [hdir']
    intro hmem
    rcases List.mem_map.mp hmem with ⟨m, hm, hlow⟩
    rcases exists_of_mem_keysOf hm with ⟨v, hmv⟩
    have heqmv : (m, v) = (N, w) :=
      hci (m, v) (mem_dictPop_elim hmv) (N, w) hmemN hlow
    have hm1 : m = N := congrArg Prod.fst heqmv
    exact not_mem_keys_dictPop hnd (hm1 ▸ hm)
  obtain ⟨evs', hcmd⟩ := nick_success_sets (fuel + 1) ts (applyDisconnect st w)
    w' N hneN hwsN hcoll'
  refine ⟨applyNick (applyDisconnect st w) w' N, evs',
    disconnect_nofail fuel ts reason hname, rfl, hdir', ?_, ?_, ?_, hcmd, ?_, ?_⟩
  · rw [hdir']
    exact dictPop_lookup_self hnd
  · exact nodup_keys_dictPop w hnc
  · exact not_mem_keys_dictPop hnc
  · show dlookup (dictSet _ N w') N = some w'
    exact dictSet_lookup_self _ _ _
  · show dlookup (dictSet _ w' (some N)) w' = some (some N)
    exact dictSet_lookup_self _ _ _

/-- Witness for C5: `alice` (connection 0) disconnects with reason "quit";
`Bob` (connection 1) then takes `/nick alice` successfully. -/
theorem c5_disconnect_frees_nickname_witness :
    ∃ st'' evs',
      disconnect 2 (fun _ => false) "12:00"
        ⟨[(0, some "alice"), (1, some "Bob")], [("alice", 0), ("Bob", 1)]⟩ 0 "quit" =
        some (applyDisconnect
            ⟨[(0, some "alice"), (1, some "Bob")], [("alice", 0), ("Bob", 1)]⟩ 0,
          Event.close 0 "quit" ::
            (keysOf (applyDisconnect
                ⟨[(0, some "alice"), (1, some "Bob")], [("alice", 0), ("Bob", 1)]⟩ 0).clients).map
              (fun v => Event.send v
                ("[" ++ "12:00" ++ "] " ++ ("* " ++ "alice" ++ " left (" ++ "quit" ++ ")") ++ "\n"))) ∧
      (applyDisconnect
          ⟨[(0, some "alice"), (1, some "Bob")], [("alice", 0), ("Bob", 1)]⟩ 0).clients
        = dictPop [(0, some "alice"), (1, some "Bob")] 0 ∧
      (applyDisconnect
          ⟨[(0, some "alice"), (1, some "Bob")], [("alice", 0), ("Bob", 1)]⟩ 0).nick_to_writer
        = dictPop [("alice", 0), ("Bob", 1)] "alice" ∧
      dlookup (applyDisconnect
          ⟨[(0, some "alice"), (1, some "Bob")], [("alice", 0), ("Bob", 1)]⟩ 0).nick_to_writer
        "alice" = none ∧
      (keysOf (applyDisconnect
          ⟨[(0, some "alice"), (1, some "Bob")], [("alice", 0), ("Bob", 1)]⟩ 0).clients).Nodup ∧
      0 ∉ keysOf (applyDisconnect
          ⟨[(0, some "alice"), (1, some "Bob")], [("alice", 0), ("Bob", 1)]⟩ 0).clients ∧
      handle_command 2 (fun _ => false) "12:00"
        (applyDisconnect
          ⟨[(0, some "alice"), (1, some "Bob")], [("alice", 0), ("Bob", 1)]⟩ 0) 1
        ("/nick " ++ "alice") = some (st'', evs') ∧
      dlookup st''.nick_to_writer "alice" = some 1 ∧
      dlookup st''.clients 1 = some (some "alice") :=
  c5_disconnect_frees_nickname 1 "12:00" "quit"
    ⟨[(0, some "alice"), (1, some "Bob")], [("alice", 0), ("Bob", 1)]⟩ 0 1 "alice"
    (by decide) (by decide) (by decide) (by decide)

theorem WfDicts_applyDisconnect {st : ServerState} (w : Nat)
    (h : WfDicts st) : WfDicts (applyDisconnect st w) := by
  obtain ⟨h1, h2⟩ := h
  refine ⟨nodup_keys_dictPop w h1, ?_⟩
  show (keysOf (match (dlookup st.clients w).join with
    | some n => dictPop st.nick_to_writer n
    | none => st.nick_to_writer)).Nodup
  rcases hj : (dlookup st.clients w).join with _ | n <;> simp only [hj]
  · exact h2
  · exact nodup_keys_dictPop n h2

/-- Total behaviour of `disconnect` at the given fuel: a defined result whose
state only shrinks (the disconnected connection removed first), whose event
trace starts with the close of the connection. -/
def DiscTotal (fails : Nat → Bool) (ts : String) (fuel : Nat) : Prop :=
  ∀ st w r, WfDicts st → st.clients.length ≤ fuel →
    ∃ st' evs rest, disconnectR fails ts fuel st w r = some (st', evs) ∧
      WfDicts st' ∧ keysOf st'.clients ⊆ keysOf (dictPop st.clients w) ∧
      st'.clients.length ≤ st.clients.length ∧
      evs = Event.close w r :: rest

/-- Total behaviour of the dead-connection sweep: every listed connection is
closed with the given reason and ends up outside the registry. -/
def DiscListTotal (fails : Nat → Bool) (ts : String) (fuel : Nat) : Prop :=
  ∀ st ws r, WfDicts st → st.clients.length ≤ fuel →
    ∃ st' evs,
      mkDisconnectList (disconnectR fails ts fuel) st ws r = some (st', evs) ∧
      WfDicts st' ∧ keysOf st'.clients ⊆ keysOf st.clients ∧
      st'.clients.length ≤ st.clients.length ∧
      ∀ v ∈ ws, Event.close v r ∈ evs ∧ v ∉ keysOf st'.clients

/-- Total behaviour of `broadcast`: a defined result; every registered
non-excluded connection whose write succeeds gets the timestamped line, and
every one whose write fails is closed with reason "broken pipe" and removed
from the registry. -/
def BcastTotal (fails : Nat → Bool) (ts : String) (fuel : Nat) : Prop :=
  ∀ st text ex, WfDicts st → st.clients.length ≤ fuel →
    ∃ st' evs, broadcast fuel fails ts st text ex = some (st', evs) ∧
      WfDicts st' ∧ keysOf st'.clients ⊆ keysOf st.clients ∧
      st'.clients.length ≤ st.clients.length ∧
      (∀ v ∈ keysOf st.clients, v ∉ ex → fails v = false →
        Event.send v ("[" ++ ts ++ "] " ++ text ++ "\n") ∈ evs) ∧
      (∀ v ∈ keysOf st.clients, v ∉ ex → fails v = true →
        Event.close v "broken pipe" ∈ evs ∧ v ∉ keysOf st'.clients)

theorem discList_total {fails : Nat → Bool} {ts : String} {fuel : Nat}
    (hP1 : DiscTotal fails ts fuel) : DiscListTotal fails ts fuel := by
  intro st ws r
  induction ws generalizing st with
  | nil =>
    intro hwf hlen
    refine ⟨st, [], rfl, hwf, fun a ha => ha, le_refl _, ?_⟩
    intro v hv
    exact absurd hv (List.not_mem_nil v)
  | cons v rest ih =>
    intro hwf hlen
    obtain ⟨st1, evs1, rest1, hd, hwf1, hsub1, hlen1, hevs1⟩ :=
      hP1 st v r hwf hlen
    obtain ⟨st2, evs2, hl, hwf2, hsub2, hlen2, hall⟩ :=
      ih st1 hwf1 (le_trans hlen1 hlen)
    refine ⟨st2, evs1 ++ evs2, by simp only [mkDisconnectList, hd, hl], hwf2,
      ?_, le_trans hlen2 hlen1, ?_⟩
    · intro a ha
      exact keysOf_dictPop_subset _ _ (hsub1 (hsub2 ha))
    · intro u hu
      rcases List.mem_cons.mp hu with h1 | h1
      · subst h1
        constructor
        · rw [hevs1]
          exact List.mem_append_left _ (List.mem_cons_self _ _)
        · intro hmem
          exact (not_mem_keys_dictPop hwf.1) (hsub1 (hsub2 hmem))
      · obtain ⟨hc, hnm⟩ := hall u h1
        exact ⟨List.mem_append_right _ hc, hnm⟩

theorem bcast_total {fails : Nat → Bool} {ts : String} {fuel : Nat}
    (hP2 : DiscListTotal fails ts fuel) : BcastTotal fails ts fuel := by
  intro st text ex hwf hlen
  obtain ⟨st2, evs2, hl, hwf2, hsub2, hlen2, hall⟩ :=
    hP2 st (((keysOf st.clients).filter (fun v => !ex.contains v)).filter fails)
      "broken pipe" hwf hlen
  refine ⟨st2,
    ((((keysOf st.clients).filter (fun v => !ex.contains v)).filter
        (fun v => !fails v)).map
      (fun v => Event.send v ("[" ++ ts ++ "] " ++ text ++ "\n"))) ++ evs2,
    by simp only [broadcast, mkBroadcast, hl], hwf2, hsub2, hlen2, ?_, ?_⟩
  · intro v hv hex hfv
    apply List.mem_append_left
    apply List.mem_map_of_mem
    refine List.mem_filter.mpr ⟨List.mem_filter.mpr ⟨hv, ?_⟩, by simp [hfv]⟩
    simp [hex]
  · intro v hv hex hfv
    have hvdead : v ∈ ((keysOf st.clients).filter
        (fun v => !ex.contains v)).filter fails := by
      refine List.mem_filter.mpr ⟨List.mem_filter.mpr ⟨hv, ?_⟩, hfv⟩
      simp [hex]
    obtain ⟨hc, hnm⟩ := hall v hvdead
    exact ⟨List.mem_append_right _ hc, hnm⟩

theorem disc_total_zero (fails : Nat → Bool) (ts : String) :
    DiscTotal fails ts 0 := by
  intro st w r hwf hlen
  have hcl : st.clients = [] := List.length_eq_zero.mp (Nat.le_zero.mp hlen)
  have hname : (dlookup st.clients w).join = none := by
    rw [hcl]
    rfl
  refine ⟨applyDisconnect st w, [Event.close w r], [], ?_,
    WfDicts_applyDisconnect w hwf, fun a ha => ha, length_dictPop_le _ _, rfl⟩
  unfold disconnectR mkDisconnect
  simp only [hname]

theorem disc_total_succ {fails : Nat → Bool} {ts : String} {fuel : Nat}
    (hP3 : BcastTotal fails ts fuel) : DiscTotal fails ts (fuel + 1) := by
  intro st w r hwf hlen
  rcases hname : (dlookup st.clients w).join with _ | n
  · refine ⟨applyDisconnect st w, [Event.close w r], [], ?_,
      WfDicts_applyDisconnect w hwf, fun a ha => ha, length_dictPop_le _ _, rfl⟩
    unfold disconnectR mkDisconnect
    simp only [hname]
  · have hwmem : w ∈ keysOf st.clients := by
      rcases hl : dlookup st.clients w with _ | v
      · rw [hl] at hname
        cases hname
      · exact dlookup_mem_keys hl
    have hpop := length_dictPop_of_mem hwmem
    have hlen1 : (applyDisconnect st w).clients.length ≤ fuel := by
      show (dictPop st.clients w).length ≤ fuel
      omega
    obtain ⟨st2, evs2, hb, hwf2, hsub2, hlen2, hsend, hdead⟩ :=
      hP3 (applyDisconnect st w) ("* " ++ n ++ " left (" ++ r ++ ")") []
        (WfDicts_applyDisconnect w hwf) hlen1
    refine ⟨st2, Event.close w r :: evs2, evs2, ?_, hwf2, ?_, ?_, rfl⟩
    · unfold disconnectR mkDisconnect
      simp only [hname]
      rw [show mkBroadcast fails ts (disconnectR fails ts fuel)
          (applyDisconnect st w) ("* " ++ n ++ " left (" ++ r ++ ")") [] =
        broadcast fuel fails ts (applyDisconnect st w)
          ("* " ++ n ++ " left (" ++ r ++ ")") [] from rfl, hb]
    · exact fun a ha => hsub2 ha
    · show st2.clients.length ≤ st.clients.length
      have h2 : st2.clients.length ≤ (dictPop st.clients w).length := hlen2
      omega

theorem sys_total (fails : Nat → Bool) (ts : String) :
    ∀ fuel, DiscTotal fails ts fuel ∧ DiscListTotal fails ts fuel ∧
      BcastTotal fails ts fuel := by
  intro fuel
  induction fuel with
  | zero =>
    have h1 := disc_total_zero fails ts
    have h2 := discList_total h1
    exact ⟨h1, h2, bcast_total h2⟩
  | succ fuel ih =>
    have h1 := disc_total_succ ih.2.2
    have h2 := discList_total h1
    exact ⟨h1, h2, bcast_total h2⟩

/-- Claim C4: `broadcast` with fuel covering the registry always returns a
result (write failures never escape as exceptions — they are caught and
turned into disconnects): each registered connection outside the exclude set
whose write succeeds receives the timestamp-prefixed line, and each one whose
write fails is collected and afterwards disconnected with reason
"broken pipe" (closed and removed from the registry). -/
theorem c4_broadcast_failures_disconnected (fails : Nat → Bool) (ts : String)
    (st : ServerState) (text : String) (exclude : List Nat)
    (hwf : WfDicts st) :
    ∃ st' evs,
      broadcast st.clients.length fails ts st text exclude = some (st', evs) ∧
      (∀ v ∈ keysOf st.clients, v ∉ exclude → fails v = false →
        Event.send v ("[" ++ ts ++ "] " ++ text ++ "\n") ∈ evs) ∧
      (∀ v ∈ keysOf st.clients, v ∉ exclude → fails v = true →
        Event.close v "broken pipe" ∈ evs ∧ v ∉ keysOf st'.clients) := by
  obtain ⟨st', evs, heq, _, _, _, hs, hd⟩ :=
    (sys_total fails ts st.clients.length).2.2 st text exclude hwf (le_refl _)
  exact ⟨st', evs, heq, hs, hd⟩

/-- Witness for C4: connection 0's write fails, connection 1 (nickname `a`)
receives the line; 0 is disconnected with reason "broken pipe". -/
theorem c4_broadcast_failures_disconnected_witness :
    ∃ st' evs,
      broadcast (⟨[(0, none), (1, some "a")], [("a", 1)]⟩ : ServerState).clients.length
        (fun v => v == 0) "11:00"
        ⟨[(0, none), (1, some "a")], [("a", 1)]⟩ "hello" [] = some (st', evs) ∧
      (∀ v ∈ keysOf (⟨[(0, none), (1, some "a")], [("a", 1)]⟩ : ServerState).clients,
        v ∉ ([] : List Nat) → (fun v => v == 0) v = false →
        Event.send v ("[" ++ "11:00" ++ "] " ++ "hello" ++ "\n") ∈ evs) ∧
      (∀ v ∈ keysOf (⟨[(0, none), (1, some "a")], [("a", 1)]⟩ : ServerState).clients,
        v ∉ ([] : List Nat) → (fun v => v == 0) v = true →
        Event.close v "broken pipe" ∈ evs ∧ v ∉ keysOf st'.clients) :=
  c4_broadcast_failures_disconnected (fun v => v == 0) "11:00"
    ⟨[(0, none), (1, some "a")], [("a", 1)]⟩ "hello" [] (by decide)

/-- The constraint a 3-byte UTF-8 sequence's leading byte places on its first
continuation byte (Python's decoder rejects overlong encodings after 0xE0 and
surrogates after 0xED). -/
def cont1ok3 (b c1 : Nat) : Prop :=
  if b = 0xE0 then 0xA0 ≤ c1 ∧ c1 ≤ 0xBF
  else if b = 0xED then 0x80 ≤ c1 ∧ c1 ≤ 0x9F
  else 0x80 ≤ c1 ∧ c1 ≤ 0xBF

instance cont1ok3_decidable (b c1 : Nat) : Decidable (cont1ok3 b c1) := by
  unfold cont1ok3
  infer_instance

/-- The constraint a 4-byte UTF-8 sequence's leading byte places on its first
continuation byte (rejecting overlong encodings after 0xF0 and codepoints
past U+10FFFF after 0xF4). -/
def cont1ok4 (b c1 : Nat) : Prop :=
  if b = 0xF0 then 0x90 ≤ c1 ∧ c1 ≤ 0xBF
  else if b = 0xF4 then 0x80 ≤ c1 ∧ c1 ≤ 0x8F
  else 0x80 ≤ c1 ∧ c1 ≤ 0xBF

instance cont1ok4_decidable (b c1 : Nat) : Decidable (cont1ok4 b c1) := by
  unfold cont1ok4
  infer_instance

mutual

/-- `raw.decode(errors="ignore")`: UTF-8 decoding where undecodable bytes are
skipped (dropped) instead of raising or being substituted.  `dec2`, `dec3`
(with `dec3tail`) and `dec4` (with `dec4tail`, `dec4tail2`) consume the
continuation bytes of 2-, 3- and 4-byte sequences; an invalid byte makes the
decoder drop the bytes consumed so far and resume at the offending byte
(Python's maximal-subpart error handling). -/
def utf8DecodeIgnore : List Nat → List Char
  | [] => []
  | b :: rest =>
    if b < 0x80 then Char.ofNat b :: utf8DecodeIgnore rest
    else if 0xC2 ≤ b ∧ b ≤ 0xDF then dec2 b rest
    else if 0xE0 ≤ b ∧ b ≤ 0xEF then dec3 b rest
    else if 0xF0 ≤ b ∧ b ≤ 0xF4 then dec4 b rest
    else utf8DecodeIgnore rest
termination_by l => (l.length, 9)

/-- Continuation of a 2-byte UTF-8 sequence. -/
def dec2 (b : Nat) : List Nat → List Char
  | [] => []
  | c1 :: rest2 =>
    if 0x80 ≤ c1 ∧ c1 ≤ 0xBF then
      Char.ofNat ((b - 0xC0) * 64 + (c1 - 0x80)) :: utf8DecodeIgnore rest2
    else utf8DecodeIgnore (c1 :: rest2)
termination_by l => (l.length + 1, 0)

/-- First continuation byte of a 3-byte UTF-8 sequence. -/
def dec3 (b : Nat) : List Nat → List Char
  | [] => []
  | c1 :: rest2 =>
    if cont1ok3 b c1 then dec3tail b c1 rest2
    else utf8DecodeIgnore (c1 :: rest2)
termination_by l => (l.length + 1, 1)

/-- Second continuation byte of a 3-byte UTF-8 sequence. -/
def dec3tail (b c1 : Nat) : List Nat → List Char
  | [] => []
  | c2 :: rest3 =>
    if 0x80 ≤ c2 ∧ c2 ≤ 0xBF then
      Char.ofNat ((b - 0xE0) * 4096 + (c1 - 0x80) * 64 + (c2 - 0x80))
        :: utf8DecodeIgnore rest3
    else utf8DecodeIgnore (c2 :: rest3)
termination_by l => (l.length + 2, 0)

/-- First continuation byte of a 4-byte UTF-8 sequence. -/
def dec4 (b : Nat) : List Nat → List Char
  | [] => []
  | c1 :: rest2 =>
    if cont1ok4 b c1 then dec4tail b c1 rest2
    else utf8DecodeIgnore (c1 :: rest2)
termination_by l => (l.length + 1, 2)

/-- Second continuation byte of a 4-byte UTF-8 sequence. -/
def dec4tail (b c1 : Nat) : List Nat → List Char
  | [] => []
  | c2 :: rest3 =>
    if 0x80 ≤ c2 ∧ c2 ≤ 0xBF then dec4tail2 b c1 c2 rest3
    else utf8DecodeIgnore (c2 :: rest3)
termination_by l => (l.length + 2, 1)

/-- Third continuation byte of a 4-byte UTF-8 sequence. -/
def dec4tail2 (b c1 c2 : Nat) : List Nat → List Char
  | [] => []
  | c3 :: rest4 =>
    if 0x80 ≤ c3 ∧ c3 ≤ 0xBF then
      Char.ofNat ((b - 0xF0) * 262144 + (c1 - 0x80) * 4096 + (c2 - 0x80) * 64
        + (c3 - 0x80)) :: utf8DecodeIgnore rest4
    else utf8DecodeIgnore (c3 :: rest4)
termination_by l => (l.length + 3, 0)

end

/-- One decoded input line as `handle_client` computes it:
`raw.decode(errors="ignore").rstrip("\r\n")`. -/
def decodeLine (raw : List Nat) : String :=
  pyRstripCRLF (String.mk (utf8DecodeIgnore raw))

/-- The UTF-8 encoding of one scalar value. -/
def encodeChar (c : Char) : List Nat :=
  if c.toNat < 0x80 then [c.toNat]
  else if c.toNat < 0x800 then [0xC0 + c.toNat / 64, 0x80 + c.toNat % 64]
  else if c.toNat < 0x10000 then
    [0xE0 + c.toNat / 4096, 0x80 + (c.toNat / 64) % 64, 0x80 + c.toNat % 64]
  else
    [0xF0 + c.toNat / 262144, 0x80 + (c.toNat / 4096) % 64,
      0x80 + (c.toNat / 64) % 64, 0x80 + c.toNat % 64]

/-- UTF-8 encoding of a character sequence. -/
def utf8Encode : List Char → List Nat
  | [] => []
  | c :: cs => encodeChar c ++ utf8Encode cs

theorem decode_encodeChar (c : Char) (bs : List Nat) :
    utf8DecodeIgnore (encodeChar c ++ bs) = c :: utf8DecodeIgnore bs := by
  have hv : c.toNat < 0xd800 ∨ (0xdfff < c.toNat ∧ c.toNat < 0x110000) := c.valid
  have hofnat : Char.ofNat c.toNat = c := Char.ofNat_toNat c
  by_cases h1 : c.toNat < 0x80
  · have he : encodeChar c = [c.toNat] := by
      simp only [encodeChar]
      rw [if_pos h1]
    rw [he]
    show utf8DecodeIgnore (c.toNat :: bs) = c :: utf8DecodeIgnore bs
    simp only [utf8DecodeIgnore]
    rw [if_pos h1, hofnat]
  · by_cases h2 : c.toNat < 0x800
    · have he : encodeChar c = [0xC0 + c.toNat / 64, 0x80 + c.toNat % 64] := by
        simp only [encodeChar]
        rw [if_neg h1, if_pos h2]
      rw [he]
      show utf8DecodeIgnore ((0xC0 + c.toNat / 64) :: (0x80 + c.toNat % 64) :: bs)
        = c :: utf8DecodeIgnore bs
      simp only [utf8DecodeIgnore]
      rw [if_neg (by omega), if_pos (by omega)]
      simp only [dec2]
      rw [if_pos (by omega)]
      have hval : (0xC0 + c.toNat / 64 - 0xC0) * 64 + (0x80 + c.toNat % 64 - 0x80)
          = c.toNat := by omega
      rw [hval, hofnat]
    · by_cases h3 : c.toNat < 0x10000
      · have he : encodeChar c = [0xE0 + c.toNat / 4096,
            0x80 + (c.toNat / 64) % 64, 0x80 + c.toNat % 64] := by
          simp only [encodeChar]
          rw [if_neg h1, if_neg h2, if_pos h3]
        rw [he]
        show utf8DecodeIgnore ((0xE0 + c.toNat / 4096)
            :: (0x80 + (c.toNat / 64) % 64) :: (0x80 + c.toNat % 64) :: bs)
          = c :: utf8DecodeIgnore bs
        simp only [utf8DecodeIgnore]
        rw [if_neg (by omega), if_neg (by omega), if_pos (by omega)]
        simp only [dec3]
        rw [if_pos (by
          unfold cont1ok3
          split_ifs <;> constructor <;> omega)]
        simp only [dec3tail]
        rw [if_pos (by omega)]
        have hval : (0xE0 + c.toNat / 4096 - 0xE0) * 4096
            + (0x80 + (c.toNat / 64) % 64 - 0x80) * 64
            + (0x80 + c.toNat % 64 - 0x80) = c.toNat := by omega
        rw [hval, hofnat]
      · have he : encodeChar c = [0xF0 + c.toNat / 262144,
            0x80 + (c.toNat / 4096) % 64, 0x80 + (c.toNat / 64) % 64,
            0x80 + c.toNat % 64] := by
          simp only [encodeChar]
          rw [if_neg h1, if_neg h2, if_neg h3]
        have hub : c.toNat < 0x110000 := by omega
        rw [he]
        show utf8DecodeIgnore ((0xF0 + c.toNat / 262144)
            :: (0x80 + (c.toNat / 4096) % 64) :: (0x80 + (c.toNat / 64) % 64)
            :: (0x80 + c.toNat % 64) :: bs)
          = c :: utf8DecodeIgnore bs
        simp only [utf8DecodeIgnore]
        rw [if_neg (by omega), if_neg (by omega), if_neg (by omega),
          if_pos (by omega)]
        simp only [dec4]
        rw [if_pos (by
          unfold cont1ok4
          split_ifs <;> constructor <;> omega)]
        simp only [dec4tail]
        rw [if_pos (by omega)]
        simp only [dec4tail2]
        rw [if_pos (by omega)]
        have hval : (0xF0 + c.toNat / 262144 - 0xF0) * 262144
            + (0x80 + (c.toNat / 4096) % 64 - 0x80) * 4096
            + (0x80 + (c.toNat / 64) % 64 - 0x80) * 64
            + (0x80 + c.toNat % 64 - 0x80) = c.toNat := by omega
        rw [hval, hofnat]

theorem utf8_decode_encode (cs : List Char) :
    utf8DecodeIgnore (utf8Encode cs) = cs := by
  induction cs with
  | nil =>
    show utf8DecodeIgnore [] = []
    simp [utf8DecodeIgnore]
  | cons c cs ih =>
    show utf8DecodeIgnore (encodeChar c ++ utf8Encode cs) = c :: cs
    rw [decode_encodeChar, ih]

theorem utf8_decode_skip_ff (cs ds : List Char) :
    utf8DecodeIgnore (utf8Encode cs ++ 255 :: utf8Encode ds) = cs ++ ds := by
  induction cs with
  | nil =>
    show utf8DecodeIgnore (255 :: utf8Encode ds) = ds
    simp only [utf8DecodeIgnore]
    rw [if_neg (by omega), if_neg (by omega), if_neg (by omega),
      if_neg (by omega)]
    exact utf8_decode_encode ds
  | cons c cs ih =>
    show utf8DecodeIgnore ((encodeChar c ++ utf8Encode cs)
        ++ 255 :: utf8Encode ds) = (c :: cs) ++ ds
    rw [List.append_assoc, decode_encodeChar, ih]
    rfl

/-- Counterexample for C9 as stated: the raw line `0xFF 'h' 'i'` decodes
under the code's `errors="ignore"` to exactly `"hi"` — the invalid byte is
dropped and no replacement character (U+FFFD) is substituted anywhere, so
invalid bytes are not "replaced" as the claim says. -/
theorem c9_replace_counterexample :
    decodeLine [255, 104, 105] = "hi" ∧
    ∀ c ∈ (decodeLine [255, 104, 105]).data, c ≠ Char.ofNat 0xFFFD := by
  have h1 : utf8DecodeIgnore [255, 104, 105] = ['h', 'i'] := by
    simp only [utf8DecodeIgnore] <;> decide
  constructor
  · show pyRstripCRLF (String.mk (utf8DecodeIgnore [255, 104, 105])) = "hi"
    rw [h1]
    decide
  · intro c hc
    have : (decodeLine [255, 104, 105]).data = ['h', 'i'] := by
      show (pyRstripCRLF (String.mk (utf8DecodeIgnore [255, 104, 105]))).data
        = ['h', 'i']
      rw [h1]
      decide
    rw [this] at hc
    rcases List.mem_cons.mp hc with h | h
    · rw [h]
      decide
    · rcases List.mem_cons.mp h with h' | h'
      · rw [h']
        decide
      · cases h'

/-- Claim C9 amended: decoding never raises, and invalid bytes are ignored
(dropped) rather than replaced or fatal — every valid UTF-8 input decodes
exactly, and an invalid byte such as 0xFF between two valid encodings is
skipped, the rest of the line being processed normally. -/
theorem c9_decode_ignore_amended (cs ds : List Char) :
    utf8DecodeIgnore (utf8Encode cs) = cs ∧
    utf8DecodeIgnore (utf8Encode cs ++ 255 :: utf8Encode ds) = cs ++ ds :=
  ⟨utf8_decode_encode cs, utf8_decode_skip_ff cs ds⟩
